import Mathlib

/-!
Verification of the gfx `render` front-end (`src/render/lib.rs`).

The renderer translates high-level draw requests into a stream of device
requests while resolving asynchronously created resources.  Pure data types
coming from the helper crates (`resource`, `shade`, `mesh`, `target`,
`device`), which are not part of the rendered source file, are modelled from
the specification; every function of `lib.rs` is embedded directly.

Side effects are made explicit:
  * messages sent on the device channel become a returned `List Request`
    (the emitted trace, in send order);
  * the inbound reply channel becomes a `List Reply` held in the state: a
    blocking receive consumes the head, and exhausting the list models
    "blocks forever" (the flag `false` / a `blocked` outcome).
-/

set_option autoImplicit false

/-- Resolution state of one resource slot (`resource::Future`).
Modelled from the spec: `Pending` until the matching reply arrives, then
exactly one of `Loaded value` or `Failed error`. -/
inductive Future (R E : Type) where
  | Pending : Future R E
  | Loaded : R → Future R E
  | Failed : E → Future R E
deriving Repr, DecidableEq

/-- Whether a slot has not been resolved yet (`Future::is_pending`). -/
def Future.is_pending {R E : Type} : Future R E → Bool
  | .Pending => true
  | _ => false

/-- Whether a slot resolved successfully. -/
def Future.isLoaded {R E : Type} : Future R E → Bool
  | .Loaded _ => true
  | _ => false

/-- Total stand-in for Rust's `unwrap` on a resolved slot: the loaded value,
or the supplied default where the source would abort. -/
def Future.unwrapD {R E : Type} (f : Future R E) (d : R) : R :=
  match f with
  | .Loaded r => r
  | _ => d

/-- Uniform variable of a program (`shade::UniformVar`); only its location is
used by the renderer.  Modelled from the spec. -/
structure UniformVar where
  location : Nat
deriving Repr, DecidableEq

/-- Vertex attribute declared by a program (`shade::AttributeVar`).
Modelled from the spec: a name, a program-declared slot, and a base type. -/
structure AttributeVar where
  name : String
  location : Nat
  base_type : Nat
deriving Repr, DecidableEq

/-- Program metadata (`device::shade::ProgramMeta`): the low-level program
name plus the declared attributes, uniforms and texture samplers.
Modelled from the spec and the use sites in `lib.rs`. -/
structure ProgramMeta where
  name : Nat
  attributes : List AttributeVar
  uniforms : List UniformVar
  textures : List UniformVar
deriving Repr, DecidableEq

/-- `DeviceError` of `lib.rs`: one classified failure per failed creation
reply. -/
inductive DeviceError where
  | ErrorNewBuffer (h : Nat)
  | ErrorNewArrayBuffer
  | ErrorNewShader (h : Nat) (e : Nat)
  | ErrorNewProgram (h : Nat)
  | ErrorNewFrameBuffer
deriving Repr, DecidableEq

/-- Outcome carried by a creation reply: `Ok(value)` or `Err(error)`.
Modelled from the spec. -/
inductive DevResult (E R : Type) where
  | ok (r : R)
  | err (e : E)
deriving Repr, DecidableEq

/-- A device reply (`device::Reply`), correlated by token.
Modelled from the spec: `(token, Ok(handle) | Err(classified error))`, one
variant per resource kind; texture and sampler creation has no classified
failure in the `DeviceError` taxonomy, so those replies always carry a
handle. -/
inductive Reply where
  | newBuffer (token : Nat) (r : DevResult Unit Nat)
  | newArrayBuffer (token : Nat) (r : DevResult Unit Nat)
  | newShader (token : Nat) (r : DevResult Nat Nat)
  | newProgram (token : Nat) (r : DevResult Unit ProgramMeta)
  | newFrameBuffer (token : Nat) (r : DevResult Unit Nat)
  | newTexture (token : Nat) (h : Nat)
  | newSampler (token : Nat) (h : Nat)
deriving Repr, DecidableEq

/-- The resource cache (`resource::Cache`): one append-only, token-indexed
table per resource kind.  Modelled from the spec. -/
structure Cache where
  buffers : List (Future Nat Unit)
  array_buffers : List (Future Nat Unit)
  shaders : List (Future Nat Nat)
  programs : List (Future ProgramMeta Unit)
  textures : List (Future Nat Unit)
  samplers : List (Future Nat Unit)
  frame_buffers : List (Future Nat Unit)
deriving Repr, DecidableEq

/-- Fresh, empty cache (`Cache::new`).  Modelled from the spec. -/
def Cache.new : Cache := ⟨[], [], [], [], [], [], []⟩

/-- Apply one device reply to the cache (`Cache::process`).
Modelled from the spec: on success the addressed slot becomes `Loaded`, on
failure it becomes `Failed` and the classified device error is returned for
queuing. -/
def Cache.process (c : Cache) : Reply → Cache × Option DeviceError
  | .newBuffer t (.ok h) =>
    ({ c with buffers := c.buffers.set t (.Loaded h) }, none)
  | .newBuffer t (.err _) =>
    ({ c with buffers := c.buffers.set t (.Failed ()) }, some (.ErrorNewBuffer t))
  | .newArrayBuffer t (.ok h) =>
    ({ c with array_buffers := c.array_buffers.set t (.Loaded h) }, none)
  | .newArrayBuffer t (.err _) =>
    ({ c with array_buffers := c.array_buffers.set t (.Failed ()) }, some .ErrorNewArrayBuffer)
  | .newShader t (.ok h) =>
    ({ c with shaders := c.shaders.set t (.Loaded h) }, none)
  | .newShader t (.err e) =>
    ({ c with shaders := c.shaders.set t (.Failed e) }, some (.ErrorNewShader t e))
  | .newProgram t (.ok m) =>
    ({ c with programs := c.programs.set t (.Loaded m) }, none)
  | .newProgram t (.err _) =>
    ({ c with programs := c.programs.set t (.Failed ()) }, some (.ErrorNewProgram t))
  | .newFrameBuffer t (.ok h) =>
    ({ c with frame_buffers := c.frame_buffers.set t (.Loaded h) }, none)
  | .newFrameBuffer t (.err _) =>
    ({ c with frame_buffers := c.frame_buffers.set t (.Failed ()) }, some .ErrorNewFrameBuffer)
  | .newTexture t h =>
    ({ c with textures := c.textures.set t (.Loaded h) }, none)
  | .newSampler t h =>
    ({ c with samplers := c.samplers.set t (.Loaded h) }, none)

/-- Process a list of replies in order, accumulating queued device errors. -/
def processList (c : Cache) (es : List DeviceError) : List Reply → Cache × List DeviceError
  | [] => (c, es)
  | rep :: rest =>
    let pr := c.process rep
    processList pr.1 (es ++ pr.2.toList) rest

/-- `Dispatcher::demand`, on explicit state: while the predicate is false,
receive one reply from the channel and apply it via `process`, pushing any
returned error onto the error queue.  An exhausted channel with the
predicate still false models blocking forever (flag `false`). -/
def demandCore (p : Cache → Bool) : Cache → List DeviceError → List Reply →
    Cache × List DeviceError × List Reply × Bool
  | c, es, [] => (c, es, [], p c)
  | c, es, rep :: rest =>
    if p c then (c, es, rep :: rest, true)
    else
      let pr := c.process rep
      demandCore p pr.1 (es ++ pr.2.toList) rest

theorem processList_cons (c : Cache) (es : List DeviceError) (rep : Reply) (rest : List Reply) :
    processList c es (rep :: rest)
      = processList (c.process rep).1 (es ++ (c.process rep).2.toList) rest := rfl

/-- The run of `demand`: the consumed replies form a channel head-segment,
the final cache and error queue are obtained by processing exactly that
segment in order, the predicate was false before each consumed reply, and a
`true` flag means the predicate holds at the end. -/
theorem demandCore_run (p : Cache → Bool) :
    ∀ (ch : List Reply) (c : Cache) (es : List DeviceError),
      ∃ pre, ch = pre ++ (demandCore p c es ch).2.2.1 ∧
        ((demandCore p c es ch).1, (demandCore p c es ch).2.1) = processList c es pre ∧
        (∀ q rem, pre = q ++ rem → rem ≠ [] → p (processList c es q).1 = false) ∧
        ((demandCore p c es ch).2.2.2 = true → p (demandCore p c es ch).1 = true) := by
  intro ch
  induction ch with
  | nil =>
    intro c es
    refine ⟨[], by simp [demandCore], by simp [demandCore, processList], ?_, ?_⟩
    · intro q rem hq hrem
      exact absurd (List.append_eq_nil.mp hq.symm).2 hrem
    · intro hflag
      simpa [demandCore] using hflag
  | cons rep rest ih =>
    intro c es
    by_cases hp : p c
    · refine ⟨[], by simp [demandCore, hp], by simp [demandCore, hp, processList], ?_, ?_⟩
      · intro q rem hq hrem
        exact absurd (List.append_eq_nil.mp hq.symm).2 hrem
      · intro _
        simpa [demandCore, hp] using hp
    · have hstep : demandCore p c es (rep :: rest)
          = demandCore p (c.process rep).1 (es ++ (c.process rep).2.toList) rest := by
        simp [demandCore, hp]
      obtain ⟨pre, h1, h2, h3, h4⟩ := ih (c.process rep).1 (es ++ (c.process rep).2.toList)
      refine ⟨rep :: pre, ?_, ?_, ?_, ?_⟩
      · rw [hstep]; simpa using h1
      · rw [hstep, processList_cons]; exact h2
      · intro q rem hq hrem
        cases q with
        | nil =>
          simpa [processList] using hp
        | cons q0 qs =>
          have hq0 : q0 = rep := by
            have := congrArg (fun l => List.head? l) hq
            simpa using this.symm
          have htail : pre = qs ++ rem := by
            have := congrArg (fun l => List.tail l) hq
            simpa using this
          have := h3 qs rem htail hrem
          subst hq0
          simpa [processList_cons] using this
      · intro hflag
        rw [hstep] at hflag ⊢
        exact h4 hflag

/-- C1: `demand(p)` returns only once `p` holds on the cache; while `p` is
false it consumes exactly one reply per iteration from the channel, applying
the consumed replies to the cache via `process` in delivery order (queueing
every error `process` returns); with `p` already true it consumes nothing
(the consumed segment must be empty since the predicate was false before
every consumed reply). -/
theorem demand_spec (p : Cache → Bool) (c c' : Cache)
    (es es' : List DeviceError) (ch ch' : List Reply)
    (h : demandCore p c es ch = (c', es', ch', true)) :
    p c' = true ∧
    ∃ pre, ch = pre ++ ch' ∧ processList c es pre = (c', es') ∧
      ∀ q rem, pre = q ++ rem → rem ≠ [] → p (processList c es q).1 = false := by
  obtain ⟨pre, h1, h2, h3, h4⟩ := demandCore_run p ch c es
  rw [h] at h1 h2 h4
  exact ⟨h4 rfl, pre, h1, h2.symm, h3⟩

/-- Cache with a single pending buffer slot, used to exercise `demand`. -/
def demandWitCache : Cache := { Cache.new with buffers := [.Pending] }

/-- Predicate "buffer slot 0 is resolved". -/
def demandWitP : Cache → Bool := fun c => !((c.buffers.getD 0 .Pending).is_pending)

/-- Cache after the matching reply has been processed. -/
def demandWitC : Cache := { Cache.new with buffers := [.Loaded 5] }

theorem demand_spec_witness :
    demandWitP demandWitC = true ∧
    ∃ pre, [Reply.newBuffer 0 (.ok 5)] = pre ++ [] ∧
      processList demandWitCache [] pre = (demandWitC, []) ∧
      ∀ q rem, pre = q ++ rem → rem ≠ [] → demandWitP (processList demandWitCache [] q).1 = false :=
  demand_spec demandWitP demandWitCache demandWitC [] [] [Reply.newBuffer 0 (.ok 5)] [] (by rfl)

/-- Element-wise description of `List.set`. -/
theorem getD_set {α : Type} (l : List α) (t : Nat) (v d : α) (i : Nat) :
    (l.set t v).getD i d = if t = i ∧ t < l.length then v else l.getD i d := by
  rw [List.getD_eq_getD_get?, List.getD_eq_getD_get?, List.get?_set]
  by_cases h : t = i
  · subst h
    by_cases hl : t < l.length
    · simp [hl, List.get?_eq_get hl]
    · simp [hl, List.getElem?_eq_none (Nat.le_of_not_lt hl)]
  · simp [h]

/-- Reading the freshly appended element of a table. -/
theorem getD_append_length {α : Type} (l : List α) (x d : α) :
    (l ++ [x]).getD l.length d = x := by
  rw [List.getD_append_right _ _ _ _ (Nat.le_refl _)]
  simp

/-- Render-target frame (`target::Frame`).  Modelled from the spec: either
the default-target sentinel (`is_def`) or an ordered list of color
attachments plus depth and stencil attachments. -/
structure Frame where
  is_def : Bool
  colors : List Nat
  depth : Nat
  stencil : Nat
deriving Repr, DecidableEq

/-- `Frame::new`: the initial (default-target) frame. -/
def Frame.new : Frame := ⟨true, [], 0, 0⟩

/-- `Frame::is_default`: whether this frame is the default-target sentinel. -/
def Frame.is_default (f : Frame) : Bool := f.is_def

/-- Vertex attribute of a mesh (`mesh::Attribute`).  Modelled from the spec:
a semantic name, a source buffer token, element count/type, stride and
offset. -/
structure Attribute where
  name : String
  buffer : Nat
  elem_count : Nat
  elem_type : Nat
  stride : Nat
  offset : Nat
deriving Repr, DecidableEq

/-- `mesh::Mesh`: an ordered set of vertex attributes.  Modelled from the
spec. -/
structure Mesh where
  attributes : List Attribute
deriving Repr, DecidableEq

/-- `mesh::Slice`: a contiguous vertex range or an indexed range referencing
an index-buffer token.  Modelled from the spec. -/
inductive Slice where
  | VertexSlice (s e : Nat)
  | IndexSlice (handle : Nat) (s e : Nat)
deriving Repr, DecidableEq

/-- `shade::ShaderBundle`: a program token plus the parameter object's
binding plan.  Modelled from the spec: the parameter object enumerates its
uniform values, uniform-block buffer references and texture (+ optional
sampler) references in a fixed traversal order, which the three lists
record; `bind` visits the uniform entries, then the block entries, then the
texture entries, in list order. -/
structure ShaderBundle where
  program : Nat
  uniforms : List (Nat × Nat)
  blocks : List (Nat × Nat)
  textures : List (Nat × Nat × Option Nat)
deriving Repr, DecidableEq

/-- `BundleError` of `lib.rs`. -/
inductive BundleError where
  | ErrorBundleBlock (bv : Nat)
  | ErrorBundleTexture (tv : Nat)
deriving Repr, DecidableEq

/-- `MeshError` of `lib.rs`. -/
inductive MeshError where
  | ErrorAttributeMissing
  | ErrorAttributeType
deriving Repr, DecidableEq

/-- `DrawError` of `lib.rs`. -/
inductive DrawError where
  | ErrorProgram
  | ErrorBundle (e : BundleError)
  | ErrorMesh (e : MeshError)
deriving Repr, DecidableEq

/-- Rasterizer primitive state (`rast::Primitive`), only used opaquely; its
cull mode is derived from it.  Modelled from the spec. -/
structure Primitive where
  method : Nat
  cull : Nat
deriving Repr, DecidableEq

/-- `Primitive::get_cull_mode`. -/
def Primitive.get_cull_mode (p : Primitive) : Nat := p.cull

/-- `rast::DrawState`: the state bound by step 4 of `draw`.  Modelled from
the spec. -/
structure DrawState where
  primitive : Primitive
  depth : Nat
  stencil : Nat
  blend : Nat
deriving Repr, DecidableEq

/-- Render-target selector (`device::target`). -/
inductive Target where
  | TargetColor (i : Nat)
  | TargetDepth
  | TargetStencil
deriving Repr, DecidableEq

/-- Shader stage (`device::shade`). -/
inductive Stage where
  | Vertex
  | Fragment
deriving Repr, DecidableEq

/-- Creation command carried by a `Call` request.  Modelled from the spec;
opaque payloads (blobs, sources, descriptors) are numbers. -/
inductive CallRequest where
  | CreateBuffer (data : Option Nat)
  | CreateArrayBuffer
  | CreateShader (stage : Stage) (src : Nat)
  | CreateProgram (shaders : List Nat)
  | CreateFrameBuffer
  | CreateTexture (info : Nat)
  | CreateSampler (info : Nat)
deriving Repr, DecidableEq

/-- Fire-and-forget command carried by a `Cast` request.  Modelled from the
spec (§6); opaque payloads are numbers. -/
inductive CastRequest where
  | Clear (data : Nat)
  | SetPrimitiveState (p : Primitive)
  | SetDepthStencilState (depth stencil cull : Nat)
  | SetBlendState (blend : Nat)
  | BindArrayBuffer (vao : Nat)
  | BindFrameBuffer (fbo : Nat)
  | BindTarget (t : Target) (plane : Nat)
  | BindProgram (prog : Nat)
  | BindUniform (loc : Nat) (value : Nat)
  | BindUniformBlock (prog slot idx buf : Nat)
  | BindTexture (slot tex : Nat) (sam : Option Nat)
  | BindAttribute (slot buf count ty stride offset : Nat)
  | BindIndex (buf : Nat)
  | Draw (start stop : Nat)
  | DrawIndexed (start stop : Nat)
  | UpdateBuffer (buf data : Nat)
  | UpdateTexture (tex info data : Nat)
deriving Repr, DecidableEq

/-- A request on the device channel (`device::Request`). -/
inductive Request where
  | Call (token : Nat) (c : CallRequest)
  | Cast (c : CastRequest)
  | SwapBuffers
deriving Repr, DecidableEq

/-- Explicit renderer state: the dispatcher's cache and error queue, the
not-yet-delivered replies of the inbound channel, the last bound frame
(`State::frame`) and the fixed default framebuffer handle. -/
structure RState where
  cache : Cache
  errors : List DeviceError
  chan : List Reply
  frame : Frame
  default_frame_buffer : Nat
deriving Repr, DecidableEq

/-- `Dispatcher::demand` lifted to the renderer state. -/
def RState.demand (r : RState) (p : Cache → Bool) : RState × Bool :=
  let q := demandCore p r.cache r.errors r.chan
  ({ r with cache := q.1, errors := q.2.1, chan := q.2.2.1 }, q.2.2.2)

/-- `Dispatcher::get_buffer`: block until the buffer slot is resolved, then
copy out its value (the flag records whether the wait terminated). -/
def RState.get_buffer (r : RState) (handle : Nat) : RState × Bool × Nat :=
  let q := r.demand (fun c => !((c.buffers.getD handle .Pending).is_pending))
  (q.1, q.2, (q.1.cache.buffers.getD handle .Pending).unwrapD 0)

/-- `Dispatcher::get_common_array_buffer` (reserved slot 0). -/
def RState.get_common_array_buffer (r : RState) : RState × Bool × Nat :=
  let q := r.demand (fun c => !((c.array_buffers.getD 0 .Pending).is_pending))
  (q.1, q.2, (q.1.cache.array_buffers.getD 0 .Pending).unwrapD 0)

/-- `Dispatcher::get_shader`. -/
def RState.get_shader (r : RState) (handle : Nat) : RState × Bool × Nat :=
  let q := r.demand (fun c => !((c.shaders.getD handle .Pending).is_pending))
  (q.1, q.2, (q.1.cache.shaders.getD handle .Pending).unwrapD 0)

/-- `Dispatcher::get_common_frame_buffer` (reserved slot 0). -/
def RState.get_common_frame_buffer (r : RState) : RState × Bool × Nat :=
  let q := r.demand (fun c => !((c.frame_buffers.getD 0 .Pending).is_pending))
  (q.1, q.2, (q.1.cache.frame_buffers.getD 0 .Pending).unwrapD 0)

/-- `Dispatcher::get_texture`. -/
def RState.get_texture (r : RState) (handle : Nat) : RState × Bool × Nat :=
  let q := r.demand (fun c => !((c.textures.getD handle .Pending).is_pending))
  (q.1, q.2, (q.1.cache.textures.getD handle .Pending).unwrapD 0)

/-- `Renderer::new`: reserve the common array-buffer and framebuffer slots
(token 0 of each table, `Pending`) and request their creation.  Returns the
initial state and the two emitted requests. -/
def Renderer.new (chan : List Reply) : RState × List Request :=
  ({ cache := { Cache.new with array_buffers := [.Pending], frame_buffers := [.Pending] },
     errors := [], chan := chan, frame := Frame.new, default_frame_buffer := 0 },
   [.Call 0 .CreateArrayBuffer, .Call 0 .CreateFrameBuffer])

/-- `Renderer::create_buffer`: allocate the next buffer token, send one
`Call` tagged with it, append `Pending`, return the token. -/
def create_buffer (r : RState) (data : Option Nat) : RState × List Request × Nat :=
  let token := r.cache.buffers.length
  ({ r with cache := { r.cache with buffers := r.cache.buffers ++ [.Pending] } },
   [.Call token (.CreateBuffer data)], token)

/-- `Renderer::create_texture`. -/
def create_texture (r : RState) (info : Nat) : RState × List Request × Nat :=
  let token := r.cache.textures.length
  ({ r with cache := { r.cache with textures := r.cache.textures ++ [.Pending] } },
   [.Call token (.CreateTexture info)], token)

/-- `Renderer::create_sampler`. -/
def create_sampler (r : RState) (info : Nat) : RState × List Request × Nat :=
  let token := r.cache.samplers.length
  ({ r with cache := { r.cache with samplers := r.cache.samplers ++ [.Pending] } },
   [.Call token (.CreateSampler info)], token)

/-- `Renderer::create_program`: append two pending shader slots, send the
two shader-creation calls, block on both shader handles, then send the
program-creation call referencing the resolved handles and append a pending
program slot.  The flag is false when one of the waits blocks forever. -/
def create_program (r : RState) (vs fs : Nat) : RState × List Request × Bool × Nat :=
  let id := r.cache.shaders.length
  let r1 : RState :=
    { r with cache := { r.cache with shaders := r.cache.shaders ++ [.Pending, .Pending] } }
  let out1 : List Request :=
    [.Call id (.CreateShader .Vertex vs), .Call (id + 1) (.CreateShader .Fragment fs)]
  match r1.get_shader id with
  | (r2, false, _) => (r2, out1, false, 0)
  | (r2, true, h_vs) =>
    match r2.get_shader (id + 1) with
    | (r3, false, _) => (r3, out1, false, 0)
    | (r3, true, h_fs) =>
      let token := r3.cache.programs.length
      let r4 : RState :=
        { r3 with cache := { r3.cache with programs := r3.cache.programs ++ [.Pending] } }
      (r4, out1 ++ [.Call token (.CreateProgram [h_vs, h_fs])], true, token)

/-- A resource kind, indexing the cache tables. -/
inductive Kind where
  | buf | abuf | sh | prog | tex | sam | fb
deriving Repr, DecidableEq

/-- Length of the table of one resource kind. -/
def Cache.lengthAt (c : Cache) : Kind → Nat
  | .buf => c.buffers.length
  | .abuf => c.array_buffers.length
  | .sh => c.shaders.length
  | .prog => c.programs.length
  | .tex => c.textures.length
  | .sam => c.samplers.length
  | .fb => c.frame_buffers.length

/-- Whether the slot of one resource kind is still pending. -/
def Cache.pendingAt (c : Cache) : Kind → Nat → Bool
  | .buf, i => (c.buffers.getD i .Pending).is_pending
  | .abuf, i => (c.array_buffers.getD i .Pending).is_pending
  | .sh, i => (c.shaders.getD i .Pending).is_pending
  | .prog, i => (c.programs.getD i .Pending).is_pending
  | .tex, i => (c.textures.getD i .Pending).is_pending
  | .sam, i => (c.samplers.getD i .Pending).is_pending
  | .fb, i => (c.frame_buffers.getD i .Pending).is_pending

/-- Replies never grow or shrink a table: only `create_*` allocates. -/
theorem lengthAt_process (c : Cache) (rep : Reply) (k : Kind) :
    ((c.process rep).1).lengthAt k = c.lengthAt k := by
  cases rep with
  | newBuffer t res => cases res <;> cases k <;> simp [Cache.process, Cache.lengthAt]
  | newArrayBuffer t res => cases res <;> cases k <;> simp [Cache.process, Cache.lengthAt]
  | newShader t res => cases res <;> cases k <;> simp [Cache.process, Cache.lengthAt]
  | newProgram t res => cases res <;> cases k <;> simp [Cache.process, Cache.lengthAt]
  | newFrameBuffer t res => cases res <;> cases k <;> simp [Cache.process, Cache.lengthAt]
  | newTexture t h => cases k <;> simp [Cache.process, Cache.lengthAt]
  | newSampler t h => cases k <;> simp [Cache.process, Cache.lengthAt]

/-- Setting a slot to a resolved value never makes a slot pending. -/
theorem is_pending_set {R E : Type} (l : List (Future R E)) (t : Nat) (v : Future R E)
    (hv : v.is_pending = false) (i : Nat) (h : (l.getD i .Pending).is_pending = false) :
    ((l.set t v).getD i .Pending).is_pending = false := by
  rw [getD_set]
  split
  · exact hv
  · exact h

/-- A resolved slot never becomes pending again under `process`. -/
theorem pendingAt_process (c : Cache) (rep : Reply) (k : Kind) (i : Nat)
    (h : c.pendingAt k i = false) : ((c.process rep).1).pendingAt k i = false := by
  cases rep <;> rename_i t res <;>
    cases res <;> cases k <;>
      simp only [Cache.process, Cache.pendingAt] at h ⊢ <;>
      first
      | exact h
      | exact is_pending_set _ _ _ (by rfl) _ h

theorem lengthAt_processList (k : Kind) :
    ∀ (pre : List Reply) (c : Cache) (es : List DeviceError),
      ((processList c es pre).1).lengthAt k = c.lengthAt k := by
  intro pre
  induction pre with
  | nil => intro c es; rfl
  | cons rep rest ih => intro c es; rw [processList_cons, ih, lengthAt_process]

theorem pendingAt_processList (k : Kind) (i : Nat) :
    ∀ (pre : List Reply) (c : Cache) (es : List DeviceError),
      c.pendingAt k i = false → ((processList c es pre).1).pendingAt k i = false := by
  intro pre
  induction pre with
  | nil => intro c es h; exact h
  | cons rep rest ih =>
    intro c es h
    rw [processList_cons]
    exact ih _ _ (pendingAt_process c rep k i h)

/-- The cache reached by `processList` does not depend on the error queue. -/
theorem processList_cache_indep :
    ∀ (pre : List Reply) (c : Cache) (es es' : List DeviceError),
      (processList c es pre).1 = (processList c es' pre).1 := by
  intro pre
  induction pre with
  | nil => intro c es es'; rfl
  | cons rep rest ih => intro c es es'; rw [processList_cons, processList_cons]; exact ih _ _ _

theorem processList_append :
    ∀ (p1 p2 : List Reply) (c : Cache) (es : List DeviceError),
      processList c es (p1 ++ p2)
        = processList (processList c es p1).1 (processList c es p1).2 p2 := by
  intro p1
  induction p1 with
  | nil => intro p2 c es; rfl
  | cons rep rest ih =>
    intro p2 c es
    simp only [List.cons_append, processList_cons]
    exact ih _ _ _

/-- One renderer state evolves into another by processing a head-segment of
its own reply channel — the only way any blocking operation mutates the
dispatcher. -/
def Evolves (r r' : RState) : Prop :=
  ∃ pre, r.chan = pre ++ r'.chan ∧ r'.cache = (processList r.cache r.errors pre).1

theorem Evolves.refl (r : RState) : Evolves r r := ⟨[], by simp, Eq.refl _⟩

theorem Evolves.trans {r r' r'' : RState} (h1 : Evolves r r') (h2 : Evolves r' r'') :
    Evolves r r'' := by
  obtain ⟨p1, hc1, hk1⟩ := h1
  obtain ⟨p2, hc2, hk2⟩ := h2
  refine ⟨p1 ++ p2, by rw [hc1, hc2, List.append_assoc], ?_⟩
  calc r''.cache = (processList r'.cache r'.errors p2).1 := hk2
    _ = (processList r'.cache (processList r.cache r.errors p1).2 p2).1 :=
        processList_cache_indep p2 _ _ _
    _ = (processList (processList r.cache r.errors p1).1
          (processList r.cache r.errors p1).2 p2).1 := by rw [hk1]
    _ = (processList r.cache r.errors (p1 ++ p2)).1 := by rw [processList_append]

theorem evolves_demand (r : RState) (p : Cache → Bool) : Evolves r (r.demand p).1 := by
  obtain ⟨pre, h1, h2, _, _⟩ := demandCore_run p r.chan r.cache r.errors
  exact ⟨pre, by simpa [RState.demand] using h1,
    by simpa [RState.demand] using congrArg Prod.fst h2⟩

theorem Evolves.pendingAt_mono {r r' : RState} (h : Evolves r r') (k : Kind) (i : Nat)
    (hp : r.cache.pendingAt k i = false) : r'.cache.pendingAt k i = false := by
  obtain ⟨pre, _, hk⟩ := h
  rw [hk]
  exact pendingAt_processList k i pre _ _ hp

theorem Evolves.lengthAt_eq {r r' : RState} (h : Evolves r r') (k : Kind) :
    r'.cache.lengthAt k = r.cache.lengthAt k := by
  obtain ⟨pre, _, hk⟩ := h
  rw [hk]
  exact lengthAt_processList k pre _ _

/-- A reply that does not address buffer token `i` leaves that buffer slot
unchanged. -/
theorem process_buffers_getD_ne (c : Cache) (rep : Reply) (i : Nat)
    (h : ∀ res, rep ≠ .newBuffer i res) :
    ((c.process rep).1).buffers.getD i .Pending = c.buffers.getD i .Pending := by
  cases rep with
  | newBuffer t res =>
    have ht : ¬(t = i ∧ t < c.buffers.length) := by
      intro hti
      exact h res (by rw [hti.1])
    cases res <;> simp only [Cache.process, getD_set] <;> simp [ht]
  | newArrayBuffer t res => cases res <;> rfl
  | newShader t res => cases res <;> rfl
  | newProgram t res => cases res <;> rfl
  | newFrameBuffer t res => cases res <;> rfl
  | newTexture t hh => rfl
  | newSampler t hh => rfl

/-- A reply that does not address program token `i` leaves that program slot
unchanged. -/
theorem process_programs_getD_ne (c : Cache) (rep : Reply) (i : Nat)
    (h : ∀ res, rep ≠ .newProgram i res) :
    ((c.process rep).1).programs.getD i .Pending = c.programs.getD i .Pending := by
  cases rep with
  | newProgram t res =>
    have ht : ¬(t = i ∧ t < c.programs.length) := by
      intro hti
      exact h res (by rw [hti.1])
    cases res <;> simp only [Cache.process, getD_set] <;> simp [ht]
  | newBuffer t res => cases res <;> rfl
  | newArrayBuffer t res => cases res <;> rfl
  | newShader t res => cases res <;> rfl
  | newFrameBuffer t res => cases res <;> rfl
  | newTexture t hh => rfl
  | newSampler t hh => rfl

/-- No reply on the channel addresses buffer token `i`. -/
def NoBufReply (r : RState) (i : Nat) : Prop :=
  ∀ rep ∈ r.chan, ∀ res, rep ≠ Reply.newBuffer i res

/-- No reply on the channel addresses program token `i`. -/
def NoProgReply (r : RState) (i : Nat) : Prop :=
  ∀ rep ∈ r.chan, ∀ res, rep ≠ Reply.newProgram i res

theorem processList_buffers_stable (i : Nat) :
    ∀ (pre : List Reply) (c : Cache) (es : List DeviceError),
      (∀ rep ∈ pre, ∀ res, rep ≠ Reply.newBuffer i res) →
      ((processList c es pre).1).buffers.getD i .Pending = c.buffers.getD i .Pending := by
  intro pre
  induction pre with
  | nil => intro c es _; rfl
  | cons rep rest ih =>
    intro c es hmem
    rw [processList_cons, ih _ _ (fun q hq => hmem q (List.mem_cons_of_mem _ hq)),
      process_buffers_getD_ne c rep i (hmem rep (List.mem_cons_self _ _))]

theorem processList_programs_stable (i : Nat) :
    ∀ (pre : List Reply) (c : Cache) (es : List DeviceError),
      (∀ rep ∈ pre, ∀ res, rep ≠ Reply.newProgram i res) →
      ((processList c es pre).1).programs.getD i .Pending = c.programs.getD i .Pending := by
  intro pre
  induction pre with
  | nil => intro c es _; rfl
  | cons rep rest ih =>
    intro c es hmem
    rw [processList_cons, ih _ _ (fun q hq => hmem q (List.mem_cons_of_mem _ hq)),
      process_programs_getD_ne c rep i (hmem rep (List.mem_cons_self _ _))]

theorem Evolves.buffers_stable {r r' : RState} (h : Evolves r r') (i : Nat)
    (hn : NoBufReply r i) :
    r'.cache.buffers.getD i .Pending = r.cache.buffers.getD i .Pending ∧ NoBufReply r' i := by
  obtain ⟨pre, hc, hk⟩ := h
  constructor
  · rw [hk]
    refine processList_buffers_stable i pre _ _ ?_
    intro rep hm res
    refine hn rep ?_ res
    rw [hc]
    exact List.mem_append_left _ hm
  · intro rep hm res
    refine hn rep ?_ res
    rw [hc]
    exact List.mem_append_right _ hm

theorem Evolves.programs_stable {r r' : RState} (h : Evolves r r') (i : Nat)
    (hn : NoProgReply r i) :
    r'.cache.programs.getD i .Pending = r.cache.programs.getD i .Pending ∧ NoProgReply r' i := by
  obtain ⟨pre, hc, hk⟩ := h
  constructor
  · rw [hk]
    refine processList_programs_stable i pre _ _ ?_
    intro rep hm res
    refine hn rep ?_ res
    rw [hc]
    exact List.mem_append_left _ hm
  · intro rep hm res
    refine hn rep ?_ res
    rw [hc]
    exact List.mem_append_right _ hm

/-- `demand` on a predicate that already holds consumes nothing. -/
theorem demandCore_triv (p : Cache → Bool) (c : Cache) (es : List DeviceError)
    (ch : List Reply) (hp : p c = true) : demandCore p c es ch = (c, es, ch, true) := by
  cases ch <;> simp [demandCore, hp]

/-- A wait for a buffer that no channel reply ever addresses blocks forever. -/
theorem demand_buffer_blocks (r : RState) (i : Nat)
    (hp : (r.cache.buffers.getD i .Pending).is_pending = true)
    (hn : NoBufReply r i) :
    (r.demand (fun c => !((c.buffers.getD i .Pending).is_pending))).2 = false := by
  by_contra hflag
  obtain ⟨pre, h1, h2, h3, h4⟩ :=
    demandCore_run (fun c => !((c.buffers.getD i .Pending).is_pending)) r.chan r.cache r.errors
  rcases hx : (demandCore (fun c => !((c.buffers.getD i .Pending).is_pending))
      r.cache r.errors r.chan).2.2.2 with _ | _
  · exact hflag hx
  · have hc' := congrArg Prod.fst h2
    have hstable : ((processList r.cache r.errors pre).1).buffers.getD i .Pending
        = r.cache.buffers.getD i .Pending := by
      refine processList_buffers_stable i pre _ _ ?_
      intro rep hm res
      refine hn rep ?_ res
      rw [h1]
      exact List.mem_append_left _ hm
    have hp' := h4 hx
    rw [hc', hstable, hp] at hp'
    simp at hp'

/-- C7: every `create_*` returns as its token the length the kind's table had
immediately before the call, appends exactly one `Pending` slot, and emits
exactly one `Call` tagged with that token, so back-to-back creations of a
kind return strictly increasing tokens; a fresh renderer reserves one
pending common slot in the array-buffer and framebuffer tables (tokens of
those kinds start at 1) and leaves every other table empty (tokens start at
0); replies never resize a table, whether processed singly or while
blocked in `demand`, so a token is never reused. -/
theorem create_tokens_spec (r : RState) (d d2 : Option Nat) (ti si : Nat)
    (ch : List Reply) (c : Cache) (rep : Reply) (k : Kind) (p : Cache → Bool) :
    ((create_buffer r d).2.2 = r.cache.buffers.length ∧
     (create_buffer r d).1.cache.buffers = r.cache.buffers ++ [.Pending] ∧
     (create_buffer r d).1.cache.buffers.getD (create_buffer r d).2.2 .Pending = .Pending ∧
     (create_buffer r d).2.1 = [.Call (create_buffer r d).2.2 (.CreateBuffer d)]) ∧
    ((create_texture r ti).2.2 = r.cache.textures.length ∧
     (create_texture r ti).1.cache.textures = r.cache.textures ++ [.Pending] ∧
     (create_texture r ti).1.cache.textures.getD (create_texture r ti).2.2 .Pending = .Pending ∧
     (create_texture r ti).2.1 = [.Call (create_texture r ti).2.2 (.CreateTexture ti)]) ∧
    ((create_sampler r si).2.2 = r.cache.samplers.length ∧
     (create_sampler r si).1.cache.samplers = r.cache.samplers ++ [.Pending] ∧
     (create_sampler r si).1.cache.samplers.getD (create_sampler r si).2.2 .Pending = .Pending ∧
     (create_sampler r si).2.1 = [.Call (create_sampler r si).2.2 (.CreateSampler si)]) ∧
    (create_buffer (create_buffer r d).1 d2).2.2 = (create_buffer r d).2.2 + 1 ∧
    ((Renderer.new ch).1.cache.buffers = [] ∧
     (Renderer.new ch).1.cache.shaders = [] ∧
     (Renderer.new ch).1.cache.programs = [] ∧
     (Renderer.new ch).1.cache.textures = [] ∧
     (Renderer.new ch).1.cache.samplers = [] ∧
     (Renderer.new ch).1.cache.array_buffers = [Future.Pending] ∧
     (Renderer.new ch).1.cache.frame_buffers = [Future.Pending] ∧
     (Renderer.new ch).2 = [.Call 0 .CreateArrayBuffer, .Call 0 .CreateFrameBuffer]) ∧
    ((c.process rep).1).lengthAt k = c.lengthAt k ∧
    ((r.demand p).1).cache.lengthAt k = r.cache.lengthAt k := by
  refine ⟨⟨rfl, rfl, getD_append_length _ _ _, rfl⟩,
    ⟨rfl, rfl, getD_append_length _ _ _, rfl⟩,
    ⟨rfl, rfl, getD_append_length _ _ _, rfl⟩,
    by simp [create_buffer],
    ⟨rfl, rfl, rfl, rfl, rfl, rfl, rfl, rfl⟩,
    lengthAt_process c rep k,
    (evolves_demand r p).lengthAt_eq k⟩

/-- Summary of one `demand` call on renderer state: the dispatcher evolves
by draining a channel segment, a `true` flag means the predicate holds
afterwards, and the frame state and default framebuffer are untouched. -/
theorem demand_run (r : RState) (p : Cache → Bool) :
    Evolves r (r.demand p).1 ∧
    ((r.demand p).2 = true → p (r.demand p).1.cache = true) ∧
    (r.demand p).1.frame = r.frame ∧
    (r.demand p).1.default_frame_buffer = r.default_frame_buffer := by
  refine ⟨evolves_demand r p, ?_, rfl, rfl⟩
  intro hok
  obtain ⟨pre, _, _, _, h4⟩ := demandCore_run p r.chan r.cache r.errors
  exact h4 hok

/-- State of `create_program` after the two pending shader slots have been
pushed, before any request is sent. -/
def cpPushed (r : RState) : RState :=
  { r with cache := { r.cache with shaders := r.cache.shaders ++ [.Pending, .Pending] } }

/-- The blocking dispatcher run that resolves the vertex shader: `get_shader`
on the pushed state at the first new token. -/
def cpFirst (r : RState) : RState × Bool × Nat :=
  (cpPushed r).get_shader r.cache.shaders.length

/-- The blocking dispatcher run that resolves the fragment shader, continuing
from the state the first run left behind. -/
def cpSecond (r : RState) : RState × Bool × Nat :=
  (cpFirst r).1.get_shader (r.cache.shaders.length + 1)

/-- Post-condition of `create_program` (C4), on the state before the call,
the state after it, the emitted requests and the returned token.  The two
handles inside the program-creation call are pinned to the values the two
blocking `get_shader` runs return, which are in turn pinned (via `unwrapD`)
to the resolved shader slots `n` and `n+1` of the caches those runs end in. -/
def CreateProgramPost (r r' : RState) (vs fs : Nat) (out : List Request) (tok : Nat) : Prop :=
  tok = r.cache.programs.length ∧
  r'.cache.programs.length = tok + 1 ∧
  r'.cache.programs.getD tok .Pending = .Pending ∧
  r'.cache.shaders.length = r.cache.shaders.length + 2 ∧
  (r'.cache.shaders.getD r.cache.shaders.length .Pending).is_pending = false ∧
  (r'.cache.shaders.getD (r.cache.shaders.length + 1) .Pending).is_pending = false ∧
  (cpFirst r).2.1 = true ∧
  (cpSecond r).2.1 = true ∧
  ((cpFirst r).1.cache.shaders.getD r.cache.shaders.length .Pending).is_pending = false ∧
  ((cpSecond r).1.cache.shaders.getD (r.cache.shaders.length + 1) .Pending).is_pending
    = false ∧
  (cpFirst r).2.2
    = ((cpFirst r).1.cache.shaders.getD r.cache.shaders.length .Pending).unwrapD 0 ∧
  (cpSecond r).2.2
    = ((cpSecond r).1.cache.shaders.getD (r.cache.shaders.length + 1) .Pending).unwrapD 0 ∧
  out = [.Call r.cache.shaders.length (.CreateShader .Vertex vs),
         .Call (r.cache.shaders.length + 1) (.CreateShader .Fragment fs),
         .Call tok (.CreateProgram [(cpFirst r).2.2, (cpSecond r).2.2])] ∧
  r' = { (cpSecond r).1 with cache := { (cpSecond r).1.cache with
      programs := (cpSecond r).1.cache.programs ++ [.Pending] } } ∧
  (∀ (c : Cache) (rep : Reply) (i : Nat), (∀ res, rep ≠ .newProgram i res) →
    ((c.process rep).1).programs.getD i .Pending = c.programs.getD i .Pending)

/-- C4: with `n` shaders and `m` programs allocated, `create_program`
appends two pending shader slots, sends shader-creation calls tagged `n`
(vertex) and `n+1` (fragment), blocks until both shader slots are resolved
(both dispatcher runs return successfully and leave the slots non-pending),
then sends one program-creation call tagged `m` referencing exactly the two
resolved shader handles those runs copied out of slots `n` and `n+1`,
appends a pending program slot and returns `m`; the new program slot is
`Pending` in the final state and stays so under every reply that is not a
program reply for that token. -/
theorem create_program_spec (r : RState) (vs fs : Nat) (r' : RState)
    (out : List Request) (tok : Nat)
    (h : create_program r vs fs = (r', out, true, tok)) :
    CreateProgramPost r r' vs fs out tok := by
  rw [create_program] at h
  rcases hg1 : ({ r with cache := { r.cache with
      shaders := r.cache.shaders ++ [.Pending, .Pending] } } : RState).get_shader
      r.cache.shaders.length with ⟨r2, ok1, v1⟩
  rw [hg1] at h
  cases ok1 with
  | false => simp at h
  | true =>
    dsimp only at h
    rcases hg2 : r2.get_shader (r.cache.shaders.length + 1) with ⟨r3, ok2, v2⟩
    rw [hg2] at h
    cases ok2 with
    | false => simp at h
    | true =>
      dsimp only at h
      simp only [Prod.mk.injEq] at h
      obtain ⟨hr', hout, _, htok⟩ := h
      have hq1 : cpFirst r = (r2, true, v1) := by
        simp only [cpFirst, cpPushed]
        exact hg1
      have hq2 : cpSecond r = (r3, true, v2) := by
        simp only [cpSecond]
        rw [hq1]
        exact hg2
      have hd1 : ({ r with cache := { r.cache with
          shaders := r.cache.shaders ++ [.Pending, .Pending] } } : RState).demand
          (fun c => !((c.shaders.getD r.cache.shaders.length .Pending).is_pending))
          = (r2, true) := by
        have e1 := congrArg (fun x => x.1) hg1
        have e2 := congrArg (fun x => x.2.1) hg1
        simp only [RState.get_shader] at e1 e2
        rw [← e1, ← e2]
      have hd2 : r2.demand
          (fun c => !((c.shaders.getD (r.cache.shaders.length + 1) .Pending).is_pending))
          = (r3, true) := by
        have e1 := congrArg (fun x => x.1) hg2
        have e2 := congrArg (fun x => x.2.1) hg2
        simp only [RState.get_shader] at e1 e2
        rw [← e1, ← e2]
      obtain ⟨hev1, hp1, _, _⟩ := demand_run ({ r with cache := { r.cache with
        shaders := r.cache.shaders ++ [.Pending, .Pending] } } : RState)
        (fun c => !((c.shaders.getD r.cache.shaders.length .Pending).is_pending))
      obtain ⟨hev2, hp2, _, _⟩ := demand_run r2
        (fun c => !((c.shaders.getD (r.cache.shaders.length + 1) .Pending).is_pending))
      rw [hd1] at hev1 hp1
      rw [hd2] at hev2 hp2
      have hnp1 : (r2.cache.shaders.getD r.cache.shaders.length .Pending).is_pending = false := by
        have := hp1 rfl
        simpa using this
      have hnp2 : (r3.cache.shaders.getD (r.cache.shaders.length + 1) .Pending).is_pending
          = false := by
        have := hp2 rfl
        simpa using this
      have hnp1' : (r3.cache.shaders.getD r.cache.shaders.length .Pending).is_pending = false := by
        have := hev2.pendingAt_mono .sh r.cache.shaders.length
          (by simpa [Cache.pendingAt] using hnp1)
        simpa [Cache.pendingAt] using this
      have hplen : r3.cache.programs.length = r.cache.programs.length := by
        have h1 := hev1.lengthAt_eq .prog
        have h2 := hev2.lengthAt_eq .prog
        simp only [Cache.lengthAt] at h1 h2
        rw [h2, h1]
      have hslen : r3.cache.shaders.length = r.cache.shaders.length + 2 := by
        have h1 := hev1.lengthAt_eq .sh
        have h2 := hev2.lengthAt_eq .sh
        simp only [Cache.lengthAt] at h1 h2
        rw [h2, h1]
        simp
      have htok' : tok = r.cache.programs.length := by rw [← htok, hplen]
      refine ⟨htok', ?_, ?_, ?_, ?_, ?_, ?_, ?_, ?_, ?_, ?_, ?_, ?_, ?_, ?_⟩
      · rw [← hr']
        simp [htok', ← hplen]
      · rw [← hr']
        have : r3.cache.programs.length = tok := by rw [htok', hplen]
        simpa [this] using getD_append_length r3.cache.programs (Future.Pending) (Future.Pending)
      · rw [← hr']
        simpa using hslen
      · rw [← hr']
        simpa using hnp1'
      · rw [← hr']
        simpa using hnp2
      · rw [hq1]
      · rw [hq2]
      · rw [hq1]
        exact hnp1
      · rw [hq2]
        exact hnp2
      · rfl
      · rfl
      · rw [hq1, hq2, ← hout, ← htok]
        simp
      · rw [hq2, ← hr']
      · intro c rep i hne
        exact process_programs_getD_ne c rep i hne

/-- Fresh renderer whose channel will resolve the two shader slots. -/
def cpWitR : RState := (Renderer.new [.newShader 0 (.ok 7), .newShader 1 (.ok 8)]).1

theorem create_program_spec_witness :
    CreateProgramPost cpWitR (create_program cpWitR 11 22).1 11 22
      (create_program cpWitR 11 22).2.1 (create_program cpWitR 11 22).2.2.2 :=
  create_program_spec cpWitR 11 22 _ _ _ (by rfl)

/-- Color-attachment diff loop of `bind_frame`: walk the stored and the new
color lists in parallel (the zip-enumerate of the source) and emit one
bind-target cast exactly at each index whose attachment changed. -/
def colorDiffCasts (i : Nat) : List Nat → List Nat → List CastRequest
  | cur :: cs, nw :: ns =>
    (if cur ≠ nw then [CastRequest.BindTarget (.TargetColor i) nw] else [])
      ++ colorDiffCasts (i + 1) cs ns
  | _, _ => []

/-- `Renderer::bind_frame`: a default frame rebinds the fixed default
framebuffer unconditionally and without diffing; otherwise resolve the
common framebuffer, bind it, emit bind-target casts for the changed color,
depth and stencil attachments relative to the stored frame, and store the
new frame. -/
def bind_frame (r : RState) (f : Frame) : RState × List Request × Bool :=
  if f.is_default then
    (r, [.Cast (.BindFrameBuffer r.default_frame_buffer)], true)
  else
    match r.get_common_frame_buffer with
    | (r2, false, _) => (r2, [], false)
    | (r2, true, fbo) =>
      let casts : List CastRequest :=
        colorDiffCasts 0 r2.frame.colors f.colors
          ++ (if r2.frame.depth ≠ f.depth then [.BindTarget .TargetDepth f.depth] else [])
          ++ (if r2.frame.stencil ≠ f.stencil then [.BindTarget .TargetStencil f.stencil] else [])
      ({ r2 with frame := f }, .Cast (.BindFrameBuffer fbo) :: casts.map .Cast, true)

/-- The diff loop never emits a color index below its starting index. -/
theorem colorDiffCasts_count_lt (t j : Nat) :
    ∀ (cs : List Nat) (i : Nat) (ns : List Nat), j < i →
      (colorDiffCasts i cs ns).count (CastRequest.BindTarget (.TargetColor j) t) = 0 := by
  intro cs
  induction cs with
  | nil => intro i ns _; cases ns <;> simp [colorDiffCasts]
  | cons cur cs ih =>
    intro i ns hj
    cases ns with
    | nil => simp [colorDiffCasts]
    | cons nw ns =>
      have hij : i ≠ j := Nat.ne_of_gt hj
      simp only [colorDiffCasts, List.count_append]
      rw [ih (i + 1) ns (Nat.lt_succ_of_lt hj)]
      by_cases hne : cur ≠ nw
      · simp [hne, List.count_cons, hij]
      · simp [hne]

/-- Exactly one bind-target cast is emitted for each changed color index,
carrying the new attachment. -/
theorem colorDiffCasts_count (t : Nat) :
    ∀ (cs ns : List Nat) (i j : Nat),
      (colorDiffCasts i cs ns).count (CastRequest.BindTarget (.TargetColor (i + j)) t)
        = if j < cs.length ∧ j < ns.length ∧ cs.getD j 0 ≠ ns.getD j 0 ∧ t = ns.getD j 0
          then 1 else 0 := by
  intro cs
  induction cs with
  | nil => intro ns i j; cases ns <;> simp [colorDiffCasts]
  | cons cur cs ih =>
    intro ns i j
    cases ns with
    | nil => simp [colorDiffCasts]
    | cons nw ns =>
      cases j with
      | zero =>
        simp only [colorDiffCasts, List.count_append, Nat.add_zero]
        rw [colorDiffCasts_count_lt t i cs (i + 1) ns (Nat.lt_succ_self i)]
        by_cases hne : cur ≠ nw
        · by_cases ht : t = nw
          · subst ht
            simp [hne]
          · simp [hne, ht, List.count_cons]
        · simp [hne]
      | succ j' =>
        simp only [colorDiffCasts, List.count_append]
        have harith : i + (j' + 1) = (i + 1) + j' := by omega
        rw [harith, ih ns (i + 1) j']
        have hhead : (if cur ≠ nw then [CastRequest.BindTarget (.TargetColor i) nw]
            else []).count (CastRequest.BindTarget (.TargetColor ((i + 1) + j')) t) = 0 := by
          have hij : i ≠ (i + 1) + j' := by omega
          by_cases hne : cur ≠ nw
          · simp [hne, List.count_cons, hij]
          · simp [hne]
        rw [hhead]
        simp [List.getD_cons_succ]

/-- Every color bind-target cast the diff loop emits is at a changed index
and carries that index's new attachment. -/
theorem colorDiffCasts_mem (t j : Nat) :
    ∀ (cs : List Nat) (i : Nat) (ns : List Nat),
      CastRequest.BindTarget (.TargetColor j) t ∈ colorDiffCasts i cs ns →
      ∃ k, j = i + k ∧ k < cs.length ∧ k < ns.length ∧
        cs.getD k 0 ≠ ns.getD k 0 ∧ t = ns.getD k 0 := by
  intro cs
  induction cs with
  | nil => intro i ns hm; cases ns <;> simp [colorDiffCasts] at hm
  | cons cur cs ih =>
    intro i ns hm
    cases ns with
    | nil => simp [colorDiffCasts] at hm
    | cons nw ns =>
      simp only [colorDiffCasts, List.mem_append] at hm
      rcases hm with hm | hm
      · by_cases hne : cur ≠ nw
        · simp [hne] at hm
          exact ⟨0, by simp [hm.1], by simp, by simp, by simpa [hm] using hne, by simp [hm.2]⟩
        · simp [hne] at hm
      · obtain ⟨k, hk1, hk2, hk3, hk4, hk5⟩ := ih (i + 1) ns hm
        exact ⟨k + 1, by omega, by simpa using Nat.succ_lt_succ hk2,
          by simpa using Nat.succ_lt_succ hk3, by simpa using hk4, by simpa using hk5⟩

/-- The diff loop emits only color bind-target casts. -/
theorem colorDiffCasts_mem_color :
    ∀ (cs : List Nat) (i : Nat) (ns : List Nat) (x : CastRequest), x ∈ colorDiffCasts i cs ns →
      ∃ j t, x = CastRequest.BindTarget (.TargetColor j) t := by
  intro cs
  induction cs with
  | nil => intro i ns x hm; cases ns <;> simp [colorDiffCasts] at hm
  | cons cur cs ih =>
    intro i ns x hm
    cases ns with
    | nil => simp [colorDiffCasts] at hm
    | cons nw ns =>
      simp only [colorDiffCasts, List.mem_append] at hm
      rcases hm with hm | hm
      · by_cases hne : cur ≠ nw
        · simp [hne] at hm
          exact ⟨i, nw, hm⟩
        · simp [hne] at hm
      · exact ih (i + 1) ns x hm

/-- State used by the concrete bind-frame diffing scenario: previous frame
with colors `[1, 2]`, depth `3`, stencil `4`, and the common framebuffer
resolved to handle `9`. -/
def c5WitR : RState :=
  { cache := { Cache.new with frame_buffers := [.Loaded 9] },
    errors := [], chan := [], frame := ⟨false, [1, 2], 3, 4⟩, default_frame_buffer := 0 }

/-- New frame `[1, 5]`, depth `3`, stencil `4` for the diffing scenario. -/
def c5WitF : Frame := ⟨false, [1, 5], 3, 4⟩

/-- C5: a default-target frame always emits exactly one bind of the fixed
default framebuffer handle, with no diffing and no state change; a
non-default frame (when the common framebuffer resolves) binds the shared
framebuffer object, then emits exactly one bind-target cast per color index
whose attachment differs element-wise from the stored frame (carrying the
new attachment), plus a depth (resp. stencil) bind-target cast exactly when
the depth (resp. stencil) attachment changed, and stores the new frame; in
the concrete scenario (previous colors `[1, 2]`, new `[1, 5]`, equal depth
and stencil) exactly one bind-target cast is emitted, for color slot 1 with
target `5`. -/
theorem bind_frame_spec (r : RState) (f : Frame) :
    (f.is_default = true →
      bind_frame r f = (r, [.Cast (.BindFrameBuffer r.default_frame_buffer)], true)) ∧
    (f.is_default = false → (bind_frame r f).2.2 = true →
      (bind_frame r f).1.frame = f ∧
      ∃ fbo casts,
        (bind_frame r f).2.1 = .Cast (.BindFrameBuffer fbo) :: List.map .Cast casts ∧
        (∀ j t, CastRequest.BindTarget (.TargetColor j) t ∈ casts →
          j < r.frame.colors.length ∧ j < f.colors.length ∧
          r.frame.colors.getD j 0 ≠ f.colors.getD j 0 ∧ t = f.colors.getD j 0) ∧
        (∀ j, casts.count (CastRequest.BindTarget (.TargetColor j) (f.colors.getD j 0))
          = if j < r.frame.colors.length ∧ j < f.colors.length ∧
               r.frame.colors.getD j 0 ≠ f.colors.getD j 0 then 1 else 0) ∧
        (CastRequest.BindTarget .TargetDepth f.depth ∈ casts ↔ ¬(r.frame.depth = f.depth)) ∧
        (CastRequest.BindTarget .TargetStencil f.stencil ∈ casts ↔
          ¬(r.frame.stencil = f.stencil))) ∧
    (bind_frame c5WitR c5WitF).2.1
      = [.Cast (.BindFrameBuffer 9), .Cast (.BindTarget (.TargetColor 1) 5)] := by
  refine ⟨?_, ?_, ?_⟩
  · intro hd
    simp [bind_frame, hd]
  · intro hd hok
    rcases hg : r.get_common_frame_buffer with ⟨r2, ok, fbo⟩
    have hfr2 : r2.frame = r.frame := by
      have e1 := congrArg (fun x => x.1) hg
      simp only [RState.get_common_frame_buffer] at e1
      rw [← e1]
      exact (demand_run r _).2.2.1
    cases ok with
    | false =>
      exfalso
      rw [bind_frame, if_neg (by simp [hd]), hg] at hok
      simp at hok
    | true =>
      have hbf : bind_frame r f = ({ r2 with frame := f },
          .Cast (.BindFrameBuffer fbo) ::
            (colorDiffCasts 0 r2.frame.colors f.colors
              ++ (if r2.frame.depth ≠ f.depth
                  then [CastRequest.BindTarget .TargetDepth f.depth] else [])
              ++ (if r2.frame.stencil ≠ f.stencil
                  then [CastRequest.BindTarget .TargetStencil f.stencil] else [])).map
              Request.Cast, true) := by
        rw [bind_frame, if_neg (by simp [hd]), hg]
      refine ⟨by rw [hbf], fbo,
        colorDiffCasts 0 r2.frame.colors f.colors
          ++ (if r2.frame.depth ≠ f.depth
              then [CastRequest.BindTarget .TargetDepth f.depth] else [])
          ++ (if r2.frame.stencil ≠ f.stencil
              then [CastRequest.BindTarget .TargetStencil f.stencil] else []),
        by rw [hbf], ?_, ?_, ?_, ?_⟩
      · intro j t hm
        rw [hfr2] at hm
        simp only [List.mem_append] at hm
        rcases hm with (hm | hm) | hm
        · obtain ⟨k, hk1, hk2, hk3, hk4, hk5⟩ := colorDiffCasts_mem t j _ 0 _ hm
          refine ⟨?_, ?_, ?_, ?_⟩
          · rw [hk1, Nat.zero_add]; exact hk2
          · rw [hk1, Nat.zero_add]; exact hk3
          · rw [hk1, Nat.zero_add]; exact hk4
          · rw [hk1, Nat.zero_add]; exact hk5
        · split at hm <;> simp_all
        · split at hm <;> simp_all
      · intro j
        rw [hfr2]
        simp only [List.count_append]
        have hc := colorDiffCasts_count (f.colors.getD j 0) r.frame.colors f.colors 0 j
        rw [Nat.zero_add] at hc
        rw [hc]
        have hd0 : (if r.frame.depth ≠ f.depth
            then [CastRequest.BindTarget .TargetDepth f.depth] else []).count
            (CastRequest.BindTarget (.TargetColor j) (f.colors.getD j 0)) = 0 := by
          split <;> simp [List.count_cons]
        have hs0 : (if r.frame.stencil ≠ f.stencil
            then [CastRequest.BindTarget .TargetStencil f.stencil] else []).count
            (CastRequest.BindTarget (.TargetColor j) (f.colors.getD j 0)) = 0 := by
          split <;> simp [List.count_cons]
        rw [hd0, hs0]
        by_cases hcond : j < r.frame.colors.length ∧ j < f.colors.length ∧
            r.frame.colors.getD j 0 ≠ f.colors.getD j 0
        · rw [if_pos ⟨hcond.1, hcond.2.1, hcond.2.2, rfl⟩, if_pos hcond]
        · rw [if_neg (fun hcc => hcond ⟨hcc.1, hcc.2.1, hcc.2.2.1⟩), if_neg hcond]
      · rw [hfr2]
        constructor
        · intro hm
          simp only [List.mem_append] at hm
          rcases hm with (hm | hm) | hm
          · obtain ⟨j, t, he⟩ := colorDiffCasts_mem_color _ 0 _ _ hm
            simp at he
          · split at hm <;> simp_all
          · split at hm <;> simp_all
        · intro hne
          simp only [List.mem_append]
          refine Or.inl (Or.inr ?_)
          simp [hne]
      · rw [hfr2]
        constructor
        · intro hm
          simp only [List.mem_append] at hm
          rcases hm with (hm | hm) | hm
          · obtain ⟨j, t, he⟩ := colorDiffCasts_mem_color _ 0 _ _ hm
            simp at he
          · split at hm <;> simp_all
          · split at hm <;> simp_all
        · intro hne
          simp only [List.mem_append]
          refine Or.inr ?_
          simp [hne]
  · rfl

theorem bind_frame_spec_witness :
    (bind_frame c5WitR c5WitF).1.frame = c5WitF ∧
    ∃ fbo casts,
      (bind_frame c5WitR c5WitF).2.1 = .Cast (.BindFrameBuffer fbo) :: List.map .Cast casts ∧
      (∀ j t, CastRequest.BindTarget (.TargetColor j) t ∈ casts →
        j < c5WitR.frame.colors.length ∧ j < c5WitF.colors.length ∧
        c5WitR.frame.colors.getD j 0 ≠ c5WitF.colors.getD j 0 ∧ t = c5WitF.colors.getD j 0) ∧
      (∀ j, casts.count (CastRequest.BindTarget (.TargetColor j) (c5WitF.colors.getD j 0))
        = if j < c5WitR.frame.colors.length ∧ j < c5WitF.colors.length ∧
             c5WitR.frame.colors.getD j 0 ≠ c5WitF.colors.getD j 0 then 1 else 0) ∧
      (CastRequest.BindTarget .TargetDepth c5WitF.depth ∈ casts ↔
        ¬(c5WitR.frame.depth = c5WitF.depth)) ∧
      (CastRequest.BindTarget .TargetStencil c5WitF.stencil ∈ casts ↔
        ¬(c5WitR.frame.stencil = c5WitF.stencil)) :=
  (bind_frame_spec c5WitR c5WitF).2.1 (by rfl) (by rfl)

/-- C10: binding the default-target frame leaves the renderer state — in
particular the stored last-bound frame — unchanged, so a subsequent
non-default bind diffs against the last non-default frame that was bound,
not against the intervening default bind. -/
theorem bind_frame_default_keeps_state (r : RState) (d f2 : Frame)
    (hd : d.is_default = true) :
    (bind_frame r d).1 = r ∧
    bind_frame (bind_frame r d).1 f2 = bind_frame r f2 := by
  have h1 : (bind_frame r d).1 = r := by simp [bind_frame, hd]
  exact ⟨h1, by rw [h1]⟩

theorem bind_frame_default_keeps_state_witness :
    (bind_frame c5WitR Frame.new).1 = c5WitR ∧
    bind_frame (bind_frame c5WitR Frame.new).1 c5WitF = bind_frame c5WitR c5WitF :=
  bind_frame_default_keeps_state c5WitR Frame.new c5WitF (by rfl)

/-- Accumulator of the bundle-binding traversal in `bind_shader_bundle`:
emitted casts, the two sequential slot counters, and the two recorded
failure variables (each overwritten on every failure). -/
structure BundleAcc where
  casts : List CastRequest
  block_slot : Nat
  texture_slot : Nat
  block_fail : Option Nat
  texture_fail : Option Nat
deriving Repr, DecidableEq

/-- Plain-uniform closure of `bind_shader_bundle`: bind unconditionally at
the program-declared location. -/
def bindUniformStep (meta : ProgramMeta) (casts : List CastRequest) (u : Nat × Nat) :
    List CastRequest :=
  casts ++ [.BindUniform ((meta.uniforms.getD u.1 ⟨0⟩).location) u.2]

/-- Uniform-block closure of `bind_shader_bundle`: a `Loaded` backing buffer
is bound at the current block slot and the counter advances; otherwise the
block failure variable is overwritten with this block. -/
def bindBlockStep (c : Cache) (meta : ProgramMeta) (a : BundleAcc) (b : Nat × Nat) : BundleAcc :=
  match c.buffers.getD b.2 .Pending with
  | .Loaded block =>
    { a with casts := a.casts ++ [.BindUniformBlock meta.name a.block_slot b.1 block],
             block_slot := a.block_slot + 1 }
  | _ => { a with block_fail := some b.1 }

/-- Texture closure of `bind_shader_bundle`: a `Loaded` texture binds the
sampler uniform to the current texture slot and the texture itself, then
the counter advances; otherwise the texture failure variable is overwritten
with this texture. -/
def bindTextureStep (c : Cache) (meta : ProgramMeta) (a : BundleAcc)
    (t : Nat × Nat × Option Nat) : BundleAcc :=
  let sam := t.2.2.map (fun s => (c.samplers.getD s .Pending).unwrapD 0)
  match c.textures.getD t.2.1 .Pending with
  | .Loaded tex =>
    let cs := a.casts ++ [.BindUniform (meta.textures.getD t.1 ⟨0⟩).location a.texture_slot,
      .BindTexture a.texture_slot tex sam]
    { a with casts := cs, texture_slot := a.texture_slot + 1 }
  | _ => { a with texture_fail := some t.1 }

/-- `Renderer::bind_shader_bundle`: emit bind-program, traverse the bundle's
binding plan (uniform values, then uniform blocks, then textures), and
report a recorded block failure with priority over a recorded texture
failure. -/
def bind_shader_bundle (c : Cache) (meta : ProgramMeta) (bundle : ShaderBundle) :
    List Request × Option BundleError :=
  let acc0 : BundleAcc :=
    ⟨bundle.uniforms.foldl (bindUniformStep meta) [], 0, 0, none, none⟩
  let acc1 := bundle.blocks.foldl (bindBlockStep c meta) acc0
  let acc2 := bundle.textures.foldl (bindTextureStep c meta) acc1
  (.Cast (.BindProgram meta.name) :: acc2.casts.map .Cast,
   match acc2.block_fail, acc2.texture_fail with
   | some bv, _ => some (.ErrorBundleBlock bv)
   | none, some tv => some (.ErrorBundleTexture tv)
   | none, none => none)

/-- Blocks of a binding plan whose backing buffer did not resolve to
`Loaded`. -/
def failingBlocks (c : Cache) (bs : List (Nat × Nat)) : List (Nat × Nat) :=
  bs.filter (fun b => !((c.buffers.getD b.2 .Pending).isLoaded))

/-- Blocks of a binding plan whose backing buffer resolved to `Loaded`. -/
def loadedBlocks (c : Cache) (bs : List (Nat × Nat)) : List (Nat × Nat) :=
  bs.filter (fun b => (c.buffers.getD b.2 .Pending).isLoaded)

/-- Textures of a binding plan that did not resolve to `Loaded`. -/
def failingTextures (c : Cache) (ts : List (Nat × Nat × Option Nat)) :
    List (Nat × Nat × Option Nat) :=
  ts.filter (fun t => !((c.textures.getD t.2.1 .Pending).isLoaded))

/-- Textures of a binding plan that resolved to `Loaded`. -/
def loadedTextures (c : Cache) (ts : List (Nat × Nat × Option Nat)) :
    List (Nat × Nat × Option Nat) :=
  ts.filter (fun t => (c.textures.getD t.2.1 .Pending).isLoaded)

/-- Value of a failure variable that is overwritten on each element of a
list, starting from a previous value. -/
def lastFail (l : List Nat) (d : Option Nat) : Option Nat :=
  match l.getLast? with
  | some x => some x
  | none => d

theorem lastFail_cons (x : Nat) (l : List Nat) (d : Option Nat) :
    lastFail (x :: l) d = lastFail l (some x) := by
  cases l with
  | nil => rfl
  | cons y ys =>
    rcases h : (y :: ys).getLast? with _ | z
    · rw [List.getLast?_eq_none_iff] at h
      exact absurd h (by simp)
    · simp [lastFail, List.getLast?_cons_cons, h]

/-- Run of the uniform-block pass: the emitted casts bind exactly the loaded
blocks at sequential slots continuing the incoming counter (failures are
skipped without advancing it), the failure variable records the last
failing block, and the texture fields are untouched. -/
theorem foldl_block_run (c : Cache) (meta : ProgramMeta) :
    ∀ (bs : List (Nat × Nat)) (a : BundleAcc),
      (bs.foldl (bindBlockStep c meta) a).casts
        = a.casts ++ ((loadedBlocks c bs).enumFrom a.block_slot).map
            (fun p => CastRequest.BindUniformBlock meta.name p.1 p.2.1
              ((c.buffers.getD p.2.2 .Pending).unwrapD 0)) ∧
      (bs.foldl (bindBlockStep c meta) a).block_slot
        = a.block_slot + (loadedBlocks c bs).length ∧
      (bs.foldl (bindBlockStep c meta) a).block_fail
        = lastFail ((failingBlocks c bs).map Prod.fst) a.block_fail ∧
      (bs.foldl (bindBlockStep c meta) a).texture_slot = a.texture_slot ∧
      (bs.foldl (bindBlockStep c meta) a).texture_fail = a.texture_fail := by
  intro bs
  induction bs with
  | nil => intro a; exact ⟨by simp [loadedBlocks], by simp [loadedBlocks], rfl, rfl, rfl⟩
  | cons b bs ih =>
    intro a
    rw [List.foldl_cons]
    rcases hb : c.buffers.getD b.2 .Pending with _ | v | e
    · have hstep : bindBlockStep c meta a b
          = ⟨a.casts, a.block_slot, a.texture_slot, some b.1, a.texture_fail⟩ := by
        simp only [bindBlockStep]
        rw [hb]
      have hlb : (c.buffers.getD b.2 .Pending).isLoaded = false := by rw [hb]; rfl
      rw [List.getD_eq_getElem?_getD] at hlb
      have hfail : failingBlocks c (b :: bs) = b :: failingBlocks c bs := by
        simp [failingBlocks, List.filter_cons, hlb]
      have hload : loadedBlocks c (b :: bs) = loadedBlocks c bs := by
        simp [loadedBlocks, List.filter_cons, hlb]
      obtain ⟨ih1, ih2, ih3, ih4, ih5⟩ :=
        ih ⟨a.casts, a.block_slot, a.texture_slot, some b.1, a.texture_fail⟩
      rw [hstep]
      refine ⟨by simpa [hload] using ih1, by simpa [hload] using ih2, ?_,
        by simpa using ih4, by simpa using ih5⟩
      rw [ih3, hfail, List.map_cons, lastFail_cons]
    · have hstep : bindBlockStep c meta a b
          = ⟨a.casts ++ [CastRequest.BindUniformBlock meta.name a.block_slot b.1 v],
             a.block_slot + 1, a.texture_slot, a.block_fail, a.texture_fail⟩ := by
        simp only [bindBlockStep]
        rw [hb]
      have hlb : (c.buffers.getD b.2 .Pending).isLoaded = true := by rw [hb]; rfl
      rw [List.getD_eq_getElem?_getD] at hlb
      have hfail : failingBlocks c (b :: bs) = failingBlocks c bs := by
        simp [failingBlocks, List.filter_cons, hlb]
      have hload : loadedBlocks c (b :: bs) = b :: loadedBlocks c bs := by
        simp [loadedBlocks, List.filter_cons, hlb]
      obtain ⟨ih1, ih2, ih3, ih4, ih5⟩ :=
        ih ⟨a.casts ++ [CastRequest.BindUniformBlock meta.name a.block_slot b.1 v],
           a.block_slot + 1, a.texture_slot, a.block_fail, a.texture_fail⟩
      rw [hstep]
      refine ⟨?_, ?_, by simpa [hfail] using ih3, by simpa using ih4, by simpa using ih5⟩
      · rw [ih1, hload]
        simp only [List.enumFrom_cons, List.map_cons, List.append_assoc,
          List.singleton_append]
        rw [hb]
        rfl
      · rw [ih2, hload, List.length_cons]
        dsimp only
        omega
    · have hstep : bindBlockStep c meta a b
          = ⟨a.casts, a.block_slot, a.texture_slot, some b.1, a.texture_fail⟩ := by
        simp only [bindBlockStep]
        rw [hb]
      have hlb : (c.buffers.getD b.2 .Pending).isLoaded = false := by rw [hb]; rfl
      rw [List.getD_eq_getElem?_getD] at hlb
      have hfail : failingBlocks c (b :: bs) = b :: failingBlocks c bs := by
        simp [failingBlocks, List.filter_cons, hlb]
      have hload : loadedBlocks c (b :: bs) = loadedBlocks c bs := by
        simp [loadedBlocks, List.filter_cons, hlb]
      obtain ⟨ih1, ih2, ih3, ih4, ih5⟩ :=
        ih ⟨a.casts, a.block_slot, a.texture_slot, some b.1, a.texture_fail⟩
      rw [hstep]
      refine ⟨by simpa [hload] using ih1, by simpa [hload] using ih2, ?_,
        by simpa using ih4, by simpa using ih5⟩
      rw [ih3, hfail, List.map_cons, lastFail_cons]

/-- Run of the texture pass: each loaded texture contributes a sampler
uniform update and a texture bind at sequential slots continuing the
incoming counter (failures are skipped without advancing it), the failure
variable records the last failing texture, and the block fields are
untouched. -/
theorem foldl_texture_run (c : Cache) (meta : ProgramMeta) :
    ∀ (ts : List (Nat × Nat × Option Nat)) (a : BundleAcc),
      (ts.foldl (bindTextureStep c meta) a).casts
        = a.casts ++ (((loadedTextures c ts).enumFrom a.texture_slot).map
            (fun p => [CastRequest.BindUniform (meta.textures.getD p.2.1 ⟨0⟩).location p.1,
              CastRequest.BindTexture p.1 ((c.textures.getD p.2.2.1 .Pending).unwrapD 0)
                (p.2.2.2.map (fun sm => (c.samplers.getD sm .Pending).unwrapD 0))])).flatten ∧
      (ts.foldl (bindTextureStep c meta) a).texture_slot
        = a.texture_slot + (loadedTextures c ts).length ∧
      (ts.foldl (bindTextureStep c meta) a).texture_fail
        = lastFail ((failingTextures c ts).map Prod.fst) a.texture_fail ∧
      (ts.foldl (bindTextureStep c meta) a).block_slot = a.block_slot ∧
      (ts.foldl (bindTextureStep c meta) a).block_fail = a.block_fail := by
  intro ts
  induction ts with
  | nil => intro a; exact ⟨by simp [loadedTextures], by simp [loadedTextures], rfl, rfl, rfl⟩
  | cons t ts ih =>
    intro a
    rw [List.foldl_cons]
    rcases hb : c.textures.getD t.2.1 .Pending with _ | v | e
    · have hstep : bindTextureStep c meta a t
          = ⟨a.casts, a.block_slot, a.texture_slot, a.block_fail, some t.1⟩ := by
        simp only [bindTextureStep]
        rw [hb]
      have hlb : (c.textures.getD t.2.1 .Pending).isLoaded = false := by rw [hb]; rfl
      rw [List.getD_eq_getElem?_getD] at hlb
      have hfail : failingTextures c (t :: ts) = t :: failingTextures c ts := by
        simp [failingTextures, List.filter_cons, hlb]
      have hload : loadedTextures c (t :: ts) = loadedTextures c ts := by
        simp [loadedTextures, List.filter_cons, hlb]
      obtain ⟨ih1, ih2, ih3, ih4, ih5⟩ :=
        ih ⟨a.casts, a.block_slot, a.texture_slot, a.block_fail, some t.1⟩
      rw [hstep]
      refine ⟨by simpa [hload] using ih1, by simpa [hload] using ih2, ?_,
        by simpa using ih4, by simpa using ih5⟩
      rw [ih3, hfail, List.map_cons, lastFail_cons]
    · have hstep : bindTextureStep c meta a t
          = ⟨a.casts ++ [CastRequest.BindUniform (meta.textures.getD t.1 ⟨0⟩).location
                a.texture_slot,
              CastRequest.BindTexture a.texture_slot v
                (t.2.2.map (fun sm => (c.samplers.getD sm .Pending).unwrapD 0))],
             a.block_slot, a.texture_slot + 1, a.block_fail, a.texture_fail⟩ := by
        simp only [bindTextureStep]
        rw [hb]
      have hlb : (c.textures.getD t.2.1 .Pending).isLoaded = true := by rw [hb]; rfl
      rw [List.getD_eq_getElem?_getD] at hlb
      have hfail : failingTextures c (t :: ts) = failingTextures c ts := by
        simp [failingTextures, List.filter_cons, hlb]
      have hload : loadedTextures c (t :: ts) = t :: loadedTextures c ts := by
        simp [loadedTextures, List.filter_cons, hlb]
      obtain ⟨ih1, ih2, ih3, ih4, ih5⟩ :=
        ih ⟨a.casts ++ [CastRequest.BindUniform (meta.textures.getD t.1 ⟨0⟩).location
              a.texture_slot,
            CastRequest.BindTexture a.texture_slot v
              (t.2.2.map (fun sm => (c.samplers.getD sm .Pending).unwrapD 0))],
           a.block_slot, a.texture_slot + 1, a.block_fail, a.texture_fail⟩
      rw [hstep]
      refine ⟨?_, ?_, by simpa [hfail] using ih3, by simpa using ih4, by simpa using ih5⟩
      · rw [ih1, hload]
        simp only [List.enumFrom_cons, List.map_cons, List.flatten_cons, List.append_assoc,
          List.cons_append, List.singleton_append, List.nil_append]
        rw [hb]
        rfl
      · rw [ih2, hload, List.length_cons]
        dsimp only
        omega
    · have hstep : bindTextureStep c meta a t
          = ⟨a.casts, a.block_slot, a.texture_slot, a.block_fail, some t.1⟩ := by
        simp only [bindTextureStep]
        rw [hb]
      have hlb : (c.textures.getD t.2.1 .Pending).isLoaded = false := by rw [hb]; rfl
      rw [List.getD_eq_getElem?_getD] at hlb
      have hfail : failingTextures c (t :: ts) = t :: failingTextures c ts := by
        simp [failingTextures, List.filter_cons, hlb]
      have hload : loadedTextures c (t :: ts) = loadedTextures c ts := by
        simp [loadedTextures, List.filter_cons, hlb]
      obtain ⟨ih1, ih2, ih3, ih4, ih5⟩ :=
        ih ⟨a.casts, a.block_slot, a.texture_slot, a.block_fail, some t.1⟩
      rw [hstep]
      refine ⟨by simpa [hload] using ih1, by simpa [hload] using ih2, ?_,
        by simpa using ih4, by simpa using ih5⟩
      rw [ih3, hfail, List.map_cons, lastFail_cons]

/-- Run of the plain-uniform pass: one unconditional bind per uniform. -/
theorem foldl_uniform_run (meta : ProgramMeta) :
    ∀ (us : List (Nat × Nat)) (cs : List CastRequest),
      us.foldl (bindUniformStep meta) cs
        = cs ++ us.map (fun u => CastRequest.BindUniform
            ((meta.uniforms.getD u.1 ⟨0⟩).location) u.2) := by
  intro us
  induction us with
  | nil => intro cs; simp
  | cons u us ih =>
    intro cs
    rw [List.foldl_cons, bindUniformStep, ih, List.map_cons]
    simp

/-- Whether a request is a uniform-block bind. -/
def isBlockBind : Request → Bool
  | .Cast (.BindUniformBlock _ _ _ _) => true
  | _ => false

/-- Whether a request is a texture bind. -/
def isTextureBind : Request → Bool
  | .Cast (.BindTexture _ _ _) => true
  | _ => false

/-- Uniform casts of the uniform pass, as a plain map. -/
def uniformCasts (meta : ProgramMeta) (us : List (Nat × Nat)) : List CastRequest :=
  us.map (fun u => .BindUniform ((meta.uniforms.getD u.1 ⟨0⟩).location) u.2)

/-- Block-bind casts expected from the block pass: the loaded blocks,
enumerated from slot 0. -/
def blockCasts (c : Cache) (meta : ProgramMeta) (bs : List (Nat × Nat)) : List CastRequest :=
  ((loadedBlocks c bs).enumFrom 0).map
    (fun p => .BindUniformBlock meta.name p.1 p.2.1 ((c.buffers.getD p.2.2 .Pending).unwrapD 0))

/-- Cast groups expected from the texture pass: per loaded texture, a
sampler-uniform update followed by a texture bind, enumerated from slot 0. -/
def textureCastGroups (c : Cache) (meta : ProgramMeta) (ts : List (Nat × Nat × Option Nat)) :
    List CastRequest :=
  (((loadedTextures c ts).enumFrom 0).map
    (fun p => [CastRequest.BindUniform (meta.textures.getD p.2.1 ⟨0⟩).location p.1,
      CastRequest.BindTexture p.1 ((c.textures.getD p.2.2.1 .Pending).unwrapD 0)
        (p.2.2.2.map (fun sm => (c.samplers.getD sm .Pending).unwrapD 0))])).flatten

/-- A failure variable that started empty holds the last overwrite. -/
theorem lastFail_none (l : List Nat) : lastFail l none = l.getLast? := by
  cases h : l.getLast? <;> simp [lastFail, h]

/-- Decomposition of one `bind_shader_bundle` call: the emitted requests are
the bind-program cast followed by the uniform, block and texture casts, and
the result is determined by the last failing block and texture. -/
theorem bind_shader_bundle_run (c : Cache) (meta : ProgramMeta) (bundle : ShaderBundle) :
    (bind_shader_bundle c meta bundle).1
      = .Cast (.BindProgram meta.name) ::
        (uniformCasts meta bundle.uniforms ++ blockCasts c meta bundle.blocks
          ++ textureCastGroups c meta bundle.textures).map .Cast ∧
    (bind_shader_bundle c meta bundle).2
      = match ((failingBlocks c bundle.blocks).map Prod.fst).getLast?,
          ((failingTextures c bundle.textures).map Prod.fst).getLast? with
        | some bv, _ => some (.ErrorBundleBlock bv)
        | none, some tv => some (.ErrorBundleTexture tv)
        | none, none => none := by
  obtain ⟨hb1, hb2, hb3, hb4, hb5⟩ := foldl_block_run c meta bundle.blocks
    ⟨bundle.uniforms.foldl (bindUniformStep meta) [], 0, 0, none, none⟩
  obtain ⟨ht1, ht2, ht3, ht4, ht5⟩ := foldl_texture_run c meta bundle.textures
    (bundle.blocks.foldl (bindBlockStep c meta)
      ⟨bundle.uniforms.foldl (bindUniformStep meta) [], 0, 0, none, none⟩)
  constructor
  · show Request.Cast (.BindProgram meta.name)
        :: (bundle.textures.foldl (bindTextureStep c meta) _).casts.map Request.Cast = _
    rw [ht1, hb1, hb4, foldl_uniform_run meta bundle.uniforms []]
    simp only [List.nil_append, List.append_assoc]
    rfl
  · show (match (bundle.textures.foldl (bindTextureStep c meta) _).block_fail,
        (bundle.textures.foldl (bindTextureStep c meta) _).texture_fail with
      | some bv, _ => some (BundleError.ErrorBundleBlock bv)
      | none, some tv => some (BundleError.ErrorBundleTexture tv)
      | none, none => none) = _
    rw [ht5, hb3, ht3, hb5, lastFail_none, lastFail_none]

theorem filter_map_cast (p : Request → Bool) :
    ∀ (l : List CastRequest), (l.map Request.Cast).filter p
      = (l.filter (fun x => p (Request.Cast x))).map Request.Cast := by
  intro l
  induction l with
  | nil => rfl
  | cons x l ih => by_cases hx : p (Request.Cast x) <;> simp [List.filter_cons, hx, ih]

theorem uniformCasts_filter_none (meta : ProgramMeta) (p : CastRequest → Bool)
    (hp : ∀ loc v, p (.BindUniform loc v) = false) :
    ∀ us, (uniformCasts meta us).filter p = [] := by
  intro us
  induction us with
  | nil => rfl
  | cons u us ih => simp [uniformCasts, List.filter_cons, hp] at ih ⊢; exact ih

theorem mapBlock_filter_all (c : Cache) (meta : ProgramMeta) (p : CastRequest → Bool)
    (hp : ∀ s i bv buf, p (CastRequest.BindUniformBlock s i bv buf) = true) :
    ∀ (l : List (Nat × Nat × Nat)),
      (l.map (fun q => CastRequest.BindUniformBlock meta.name q.1 q.2.1
        ((c.buffers.getD q.2.2 .Pending).unwrapD 0))).filter p
      = l.map (fun q => CastRequest.BindUniformBlock meta.name q.1 q.2.1
          ((c.buffers.getD q.2.2 .Pending).unwrapD 0)) := by
  intro l
  induction l with
  | nil => rfl
  | cons q l ih =>
    rw [List.map_cons, List.filter_cons, if_pos (by rw [hp]), ih]

theorem mapBlock_filter_none (c : Cache) (meta : ProgramMeta) (p : CastRequest → Bool)
    (hp : ∀ s i bv buf, p (CastRequest.BindUniformBlock s i bv buf) = false) :
    ∀ (l : List (Nat × Nat × Nat)),
      (l.map (fun q => CastRequest.BindUniformBlock meta.name q.1 q.2.1
        ((c.buffers.getD q.2.2 .Pending).unwrapD 0))).filter p = [] := by
  intro l
  induction l with
  | nil => rfl
  | cons q l ih =>
    rw [List.map_cons, List.filter_cons, if_neg (by simp [hp]), ih]

theorem texGroups_filter_block (c : Cache) (meta : ProgramMeta) :
    ∀ (l : List (Nat × Nat × Nat × Option Nat)),
      ((l.map (fun p => [CastRequest.BindUniform (meta.textures.getD p.2.1 ⟨0⟩).location p.1,
          CastRequest.BindTexture p.1 ((c.textures.getD p.2.2.1 .Pending).unwrapD 0)
            (p.2.2.2.map (fun sm => (c.samplers.getD sm .Pending).unwrapD 0))])).flatten).filter
        (fun x => isBlockBind (Request.Cast x)) = [] := by
  intro l
  induction l with
  | nil => rfl
  | cons q l ih =>
    simp only [List.map_cons, List.flatten_cons, List.filter_append, ih, List.append_nil]
    rfl

theorem texGroups_filter_texture (c : Cache) (meta : ProgramMeta) :
    ∀ (l : List (Nat × Nat × Nat × Option Nat)),
      ((l.map (fun p => [CastRequest.BindUniform (meta.textures.getD p.2.1 ⟨0⟩).location p.1,
          CastRequest.BindTexture p.1 ((c.textures.getD p.2.2.1 .Pending).unwrapD 0)
            (p.2.2.2.map (fun sm => (c.samplers.getD sm .Pending).unwrapD 0))])).flatten).filter
        (fun x => isTextureBind (Request.Cast x))
      = l.map (fun p => CastRequest.BindTexture p.1
          ((c.textures.getD p.2.2.1 .Pending).unwrapD 0)
          (p.2.2.2.map (fun sm => (c.samplers.getD sm .Pending).unwrapD 0))) := by
  intro l
  induction l with
  | nil => rfl
  | cons q l ih =>
    simp only [List.map_cons, List.flatten_cons, List.filter_append, ih]
    rfl

/-- C2 (amended): when at least one uniform-block reference has a backing
buffer not in the `Loaded` state, `bind_shader_bundle` returns the block
error for the last such block encountered during traversal (the failure
variable is overwritten on every failure), and a block error always takes
priority over any texture error; a texture error (again for the last
failing texture) is reported only when no block failed; success means both
passes were failure-free; successfully bound blocks (resp. textures)
receive sequential slot indices 0, 1, 2, … advanced only per successful
bind, with failed entries skipped without advancing the counter. -/
theorem bind_shader_bundle_spec (c : Cache) (meta : ProgramMeta) (bundle : ShaderBundle) :
    ((bind_shader_bundle c meta bundle).2 = none ↔
      failingBlocks c bundle.blocks = [] ∧ failingTextures c bundle.textures = []) ∧
    (∀ bv, (bind_shader_bundle c meta bundle).2 = some (.ErrorBundleBlock bv) ↔
      ((failingBlocks c bundle.blocks).map Prod.fst).getLast? = some bv) ∧
    (∀ tv, (bind_shader_bundle c meta bundle).2 = some (.ErrorBundleTexture tv) ↔
      failingBlocks c bundle.blocks = [] ∧
      ((failingTextures c bundle.textures).map Prod.fst).getLast? = some tv) ∧
    ((bind_shader_bundle c meta bundle).1.filter isBlockBind
      = (blockCasts c meta bundle.blocks).map .Cast) ∧
    ((bind_shader_bundle c meta bundle).1.filter isTextureBind
      = ((loadedTextures c bundle.textures).enumFrom 0).map
          (fun p => Request.Cast (.BindTexture p.1
            ((c.textures.getD p.2.2.1 .Pending).unwrapD 0)
            (p.2.2.2.map (fun sm => (c.samplers.getD sm .Pending).unwrapD 0))))) := by
  obtain ⟨hcasts, hres⟩ := bind_shader_bundle_run c meta bundle
  refine ⟨?_, ?_, ?_, ?_, ?_⟩
  · rw [hres]
    rcases hB : ((failingBlocks c bundle.blocks).map Prod.fst).getLast? with _ | bv
    · rcases hT : ((failingTextures c bundle.textures).map Prod.fst).getLast? with _ | tv
      · have h1 : failingBlocks c bundle.blocks = [] := by simpa using hB
        have h2 : failingTextures c bundle.textures = [] := by simpa using hT
        simp [h1, h2]
      · have h2 : failingTextures c bundle.textures ≠ [] := by
          intro he
          rw [he] at hT
          simp at hT
        simp [h2]
    · have h1 : failingBlocks c bundle.blocks ≠ [] := by
        intro he
        rw [he] at hB
        simp at hB
      simp [h1]
  · intro bv
    rw [hres]
    rcases hB : ((failingBlocks c bundle.blocks).map Prod.fst).getLast? with _ | bv'
    · rcases hT : ((failingTextures c bundle.textures).map Prod.fst).getLast? with _ | tv <;>
        simp
    · simp [eq_comm]
  · intro tv
    rw [hres]
    rcases hB : ((failingBlocks c bundle.blocks).map Prod.fst).getLast? with _ | bv
    · have h1 : failingBlocks c bundle.blocks = [] := by simpa using hB
      rcases hT : ((failingTextures c bundle.textures).map Prod.fst).getLast? with _ | tv' <;>
        simp [h1, eq_comm]
    · have h1 : failingBlocks c bundle.blocks ≠ [] := by
        intro he
        rw [he] at hB
        simp at hB
      simp [h1]
  · rw [hcasts, List.filter_cons_of_neg (by simp [isBlockBind]), filter_map_cast,
      List.filter_append, List.filter_append,
      uniformCasts_filter_none meta _ (fun loc v => rfl) bundle.uniforms]
    rw [show (blockCasts c meta bundle.blocks).filter (fun x => isBlockBind (Request.Cast x))
        = blockCasts c meta bundle.blocks from
      mapBlock_filter_all c meta _ (fun s i bv buf => rfl) _]
    rw [show (textureCastGroups c meta bundle.textures).filter
        (fun x => isBlockBind (Request.Cast x)) = [] from texGroups_filter_block c meta _]
    simp
  · rw [hcasts, List.filter_cons_of_neg (by simp [isTextureBind]), filter_map_cast,
      List.filter_append, List.filter_append,
      uniformCasts_filter_none meta _ (fun loc v => rfl) bundle.uniforms]
    rw [show (blockCasts c meta bundle.blocks).filter (fun x => isTextureBind (Request.Cast x))
        = [] from mapBlock_filter_none c meta _ (fun s i bv buf => rfl) _]
    rw [show (textureCastGroups c meta bundle.textures).filter
        (fun x => isTextureBind (Request.Cast x))
        = ((loadedTextures c bundle.textures).enumFrom 0).map
            (fun p => CastRequest.BindTexture p.1
              ((c.textures.getD p.2.2.1 .Pending).unwrapD 0)
              (p.2.2.2.map (fun sm => (c.samplers.getD sm .Pending).unwrapD 0)))
        from texGroups_filter_texture c meta _]
    simp

/-- Cache in which both referenced block buffers are unresolved. -/
def c2Cache : Cache := { Cache.new with buffers := [.Pending, .Pending] }

/-- Bundle whose binding plan has two failing blocks, vars 10 then 20. -/
def c2Bundle : ShaderBundle := ⟨0, [], [(10, 0), (20, 1)], []⟩

/-- Minimal program metadata for the counterexample. -/
def c2Meta : ProgramMeta := ⟨0, [], [], []⟩

/-- C2 counterexample: with two failing blocks (vars 10 then 20 in traversal
order), the first-encountered failing block is 10, yet the code reports the
block error for 20 — the last one — because the failure variable is
overwritten on every failing block; this refutes "the result is the block
error for the first such block encountered during traversal". -/
theorem bind_shader_bundle_first_cex :
    ((failingBlocks c2Cache c2Bundle.blocks).map Prod.fst).head? = some 10 ∧
    (bind_shader_bundle c2Cache c2Meta c2Bundle).2 = some (.ErrorBundleBlock 20) ∧
    some (BundleError.ErrorBundleBlock 20) ≠ some (BundleError.ErrorBundleBlock 10) :=
  ⟨rfl, rfl, by decide⟩

/-- Resolution of one program-declared attribute against a mesh: the
matching mesh attribute if one with the same name exists and its element
type is compatible with the program's declared base type, else the mesh
error the source returns at that attribute. -/
def attrStatus (compat : Nat → Nat → Bool) (m : Mesh) (sat : AttributeVar) :
    Except MeshError Attribute :=
  match m.attributes.find? (fun a => a.name == sat.name) with
  | none => .error .ErrorAttributeMissing
  | some vat =>
    if compat vat.elem_type sat.base_type then .ok vat else .error .ErrorAttributeType

/-- Loop of `Renderer::bind_mesh`: iterate the program's attributes in
order; a missing mesh attribute or an incompatible element type aborts with
the corresponding error (casts already emitted remain), otherwise emit one
bind-attribute cast and continue.  The element-type compatibility predicate
of the device layer is a parameter. -/
def bindMeshGo (compat : Nat → Nat → Bool) (c : Cache) (m : Mesh) :
    List AttributeVar → List Request × Option MeshError
  | [] => ([], none)
  | sat :: rest =>
    match m.attributes.find? (fun a => a.name == sat.name) with
    | some vat =>
      if compat vat.elem_type sat.base_type then
        let q := bindMeshGo compat c m rest
        (.Cast (.BindAttribute sat.location ((c.buffers.getD vat.buffer .Pending).unwrapD 0)
          vat.elem_count vat.elem_type vat.stride vat.offset) :: q.1, q.2)
      else ([], some .ErrorAttributeType)
    | none => ([], some .ErrorAttributeMissing)

/-- `Renderer::bind_mesh`. -/
def bind_mesh (compat : Nat → Nat → Bool) (c : Cache) (m : Mesh) (prog : ProgramMeta) :
    List Request × Option MeshError :=
  bindMeshGo compat c m prog.attributes

theorem bindMeshGo_spec (compat : Nat → Nat → Bool) (c : Cache) (m : Mesh) :
    ∀ (sats : List AttributeVar),
      ∃ k, k ≤ sats.length ∧
        (∀ j, j < k → ∃ vat, attrStatus compat m (sats.getD j ⟨"", 0, 0⟩) = .ok vat) ∧
        (bindMeshGo compat c m sats).1 = (sats.take k).filterMap (fun sat =>
          match attrStatus compat m sat with
          | .ok vat => some (Request.Cast (.BindAttribute sat.location
              ((c.buffers.getD vat.buffer .Pending).unwrapD 0)
              vat.elem_count vat.elem_type vat.stride vat.offset))
          | .error _ => none) ∧
        ((k = sats.length ∧ (bindMeshGo compat c m sats).2 = none) ∨
         (k < sats.length ∧
          ∃ e, attrStatus compat m (sats.getD k ⟨"", 0, 0⟩) = .error e ∧
            (bindMeshGo compat c m sats).2 = some e)) := by
  intro sats
  induction sats with
  | nil => exact ⟨0, Nat.le_refl _, fun j hj => absurd hj (Nat.not_lt_zero _), rfl,
      Or.inl ⟨rfl, rfl⟩⟩
  | cons sat rest ih =>
    rcases hfind : m.attributes.find? (fun a => a.name == sat.name) with _ | vat
    · refine ⟨0, Nat.zero_le _, fun j hj => absurd hj (Nat.not_lt_zero _), ?_, Or.inr ?_⟩
      · simp [bindMeshGo, hfind]
      · refine ⟨Nat.succ_pos _, .ErrorAttributeMissing, ?_, ?_⟩
        · simp [attrStatus, List.getD_cons_zero, hfind]
        · simp [bindMeshGo, hfind]
    · by_cases hc : compat vat.elem_type sat.base_type
      · obtain ⟨k, hk1, hk2, hk3, hk4⟩ := ih
        have hstep : bindMeshGo compat c m (sat :: rest)
            = (.Cast (.BindAttribute sat.location
                ((c.buffers.getD vat.buffer .Pending).unwrapD 0)
                vat.elem_count vat.elem_type vat.stride vat.offset)
              :: (bindMeshGo compat c m rest).1, (bindMeshGo compat c m rest).2) := by
          simp [bindMeshGo, hfind, hc]
        have hsat : attrStatus compat m sat = .ok vat := by
          simp [attrStatus, hfind, hc]
        refine ⟨k + 1, Nat.succ_le_succ hk1, ?_, ?_, ?_⟩
        · intro j hj
          cases j with
          | zero => exact ⟨vat, by simpa [List.getD_cons_zero] using hsat⟩
          | succ j' => simpa [List.getD_cons_succ] using hk2 j' (Nat.lt_of_succ_lt_succ hj)
        · rw [hstep]
          simp only [List.take_succ_cons, List.filterMap_cons, hsat]
          rw [hk3]
        · rcases hk4 with ⟨hkl, hnone⟩ | ⟨hkl, e, he, hsome⟩
          · exact Or.inl ⟨by simp [hkl], by rw [hstep]; simpa using hnone⟩
          · refine Or.inr ⟨Nat.succ_lt_succ hkl, e, by simpa [List.getD_cons_succ] using he,
              by rw [hstep]; simpa using hsome⟩
      · refine ⟨0, Nat.zero_le _, fun j hj => absurd hj (Nat.not_lt_zero _), ?_, Or.inr ?_⟩
        · simp [bindMeshGo, hfind, hc]
        · refine ⟨Nat.succ_pos _, .ErrorAttributeType, ?_, ?_⟩
          · simp [attrStatus, List.getD_cons_zero, hfind, hc]
          · simp [bindMeshGo, hfind, hc]

/-- C6: `bind_mesh` walks the program's declared attributes in order: there
is a split point `k` such that every attribute before `k` resolved (a mesh
attribute of the same name exists and is type-compatible) and contributed
exactly one bind-attribute cast — carrying the program slot, resolved
buffer handle, element count, element type, stride and offset — in
traversal order; when `k` is short of the list, the `k`-th attribute is the
first failure, the returned error is attribute-missing when no mesh
attribute carries its name (attribute-type when the match is incompatible),
and no cast is emitted at or after `k`; when every attribute resolves the
result is success. -/
theorem bind_mesh_spec (compat : Nat → Nat → Bool) (c : Cache) (m : Mesh)
    (prog : ProgramMeta) :
    ∃ k, k ≤ prog.attributes.length ∧
      (∀ j, j < k → ∃ vat, attrStatus compat m (prog.attributes.getD j ⟨"", 0, 0⟩) = .ok vat) ∧
      (bind_mesh compat c m prog).1 = (prog.attributes.take k).filterMap (fun sat =>
        match attrStatus compat m sat with
        | .ok vat => some (Request.Cast (.BindAttribute sat.location
            ((c.buffers.getD vat.buffer .Pending).unwrapD 0)
            vat.elem_count vat.elem_type vat.stride vat.offset))
        | .error _ => none) ∧
      ((k = prog.attributes.length ∧ (bind_mesh compat c m prog).2 = none) ∨
       (k < prog.attributes.length ∧
        ∃ e, attrStatus compat m (prog.attributes.getD k ⟨"", 0, 0⟩) = .error e ∧
          (bind_mesh compat c m prog).2 = some e)) :=
  bindMeshGo_spec compat c m prog.attributes

/-- Loop of `Renderer::prebind_mesh`: synchronously resolve every vertex
attribute's source buffer, in order. -/
def prebindMeshGo (r : RState) : List Attribute → RState × Bool
  | [] => (r, true)
  | a :: rest =>
    match r.get_buffer a.buffer with
    | (r2, false, _) => (r2, false)
    | (r2, true, _) => prebindMeshGo r2 rest

/-- `Renderer::prebind_mesh`: resolve all vertex-attribute buffers and, for
an indexed slice, the index buffer; no requests are emitted. -/
def prebind_mesh (r : RState) (m : Mesh) (sl : Slice) : RState × Bool :=
  match prebindMeshGo r m.attributes with
  | (r2, false) => (r2, false)
  | (r2, true) =>
    match sl with
    | .IndexSlice h _ _ =>
      match r2.get_buffer h with
      | (r3, ok, _) => (r3, ok)
    | .VertexSlice _ _ => (r2, true)

/-- Buffer pass of `Renderer::prebind_bundle`. -/
def prebindBlocksGo (r : RState) : List (Nat × Nat) → RState × Bool
  | [] => (r, true)
  | b :: rest =>
    match r.demand (fun c => !((c.buffers.getD b.2 .Pending).is_pending)) with
    | (r2, false) => (r2, false)
    | (r2, true) => prebindBlocksGo r2 rest

/-- Texture pass of `Renderer::prebind_bundle`: each texture, then its
optional sampler. -/
def prebindTexturesGo (r : RState) : List (Nat × Nat × Option Nat) → RState × Bool
  | [] => (r, true)
  | t :: rest =>
    match r.demand (fun c => !((c.textures.getD t.2.1 .Pending).is_pending)) with
    | (r2, false) => (r2, false)
    | (r2, true) =>
      match t.2.2 with
      | some sam =>
        match r2.demand (fun c => !((c.samplers.getD sam .Pending).is_pending)) with
        | (r3, false) => (r3, false)
        | (r3, true) => prebindTexturesGo r3 rest
      | none => prebindTexturesGo r2 rest

/-- `Renderer::prebind_bundle`: the buffers pass, then the texture pass; no
requests are emitted. -/
def prebind_bundle (r : RState) (b : ShaderBundle) : RState × Bool :=
  match prebindBlocksGo r b.blocks with
  | (r2, false) => (r2, false)
  | (r2, true) => prebindTexturesGo r2 b.textures

/-- Outcome of one `draw` call: blocked forever inside a demand, aborted by
the `fail!` on a still-pending program, a returned draw error, or success. -/
inductive DrawRes where
  | blocked
  | aborted
  | err (e : DrawError)
  | ok
deriving Repr, DecidableEq

/-- `Renderer::draw`: prebind the mesh, the bundle and the program (all
blocking, emitting nothing), then emit the state casts, bind the common
array buffer, bind the output frame, check the program slot (`fail!` when
still pending, program error when failed), bind the shader bundle, bind the
mesh, and finally emit the draw (or index-bind plus indexed-draw) casts;
each failure aborts the remaining steps, leaving everything already emitted
in the trace. -/
def draw (compat : Nat → Nat → Bool) (r0 : RState) (m : Mesh) (sl : Slice) (f : Frame)
    (b : ShaderBundle) (st : DrawState) : RState × List Request × DrawRes :=
  match prebind_mesh r0 m sl with
  | (r1, false) => (r1, [], .blocked)
  | (r1, true) =>
    match prebind_bundle r1 b with
    | (r2, false) => (r2, [], .blocked)
    | (r2, true) =>
      match r2.demand (fun c => !((c.programs.getD b.program .Pending).is_pending)) with
      | (r3, false) => (r3, [], .blocked)
      | (r3, true) =>
        let sc : List Request := [.Cast (.SetPrimitiveState st.primitive),
          .Cast (.SetDepthStencilState st.depth st.stencil st.primitive.get_cull_mode),
          .Cast (.SetBlendState st.blend)]
        match r3.get_common_array_buffer with
        | (r4, false, _) => (r4, sc, .blocked)
        | (r4, true, vao) =>
          match bind_frame r4 f with
          | (r5, fout, false) => (r5, sc ++ [.Cast (.BindArrayBuffer vao)] ++ fout, .blocked)
          | (r5, fout, true) =>
            let sc3 := sc ++ [.Cast (.BindArrayBuffer vao)] ++ fout
            match r5.cache.programs.getD b.program .Pending with
            | .Pending => (r5, sc3, .aborted)
            | .Failed _ => (r5, sc3, .err .ErrorProgram)
            | .Loaded p =>
              match bind_shader_bundle r5.cache p b with
              | (bout, some e) => (r5, sc3 ++ bout, .err (.ErrorBundle e))
              | (bout, none) =>
                match bind_mesh compat r5.cache m p with
                | (mout, some e) => (r5, sc3 ++ bout ++ mout, .err (.ErrorMesh e))
                | (mout, none) =>
                  match sl with
                  | .VertexSlice s e =>
                    (r5, sc3 ++ bout ++ mout ++ [.Cast (.Draw s e)], .ok)
                  | .IndexSlice h s e =>
                    (r5, sc3 ++ bout ++ mout
                      ++ [.Cast (.BindIndex ((r5.cache.buffers.getD h .Pending).unwrapD 0)),
                          .Cast (.DrawIndexed s e)], .ok)

theorem Evolves.frame_set {r r2 : RState} (h : Evolves r r2) (f : Frame) :
    Evolves r { r2 with frame := f } := by
  obtain ⟨pre, h1, h2⟩ := h
  exact ⟨pre, h1, h2⟩

theorem prebindMeshGo_evolves : ∀ (l : List Attribute) (r : RState),
    Evolves r (prebindMeshGo r l).1 := by
  intro l
  induction l with
  | nil => intro r; exact Evolves.refl r
  | cons a rest ih =>
    intro r
    rcases hg : r.get_buffer a.buffer with ⟨r2, ok, v⟩
    have hE : Evolves r r2 := by
      have h0 : Evolves r (r.get_buffer a.buffer).1 := evolves_demand r _
      rwa [hg] at h0
    have hunf : prebindMeshGo r (a :: rest)
        = match r.get_buffer a.buffer with
          | (r2, false, _) => (r2, false)
          | (r2, true, _) => prebindMeshGo r2 rest := rfl
    rw [hunf, hg]
    cases ok
    · exact hE
    · exact hE.trans (ih r2)

theorem prebind_mesh_evolves (r : RState) (m : Mesh) (sl : Slice) :
    Evolves r (prebind_mesh r m sl).1 := by
  rcases hg : prebindMeshGo r m.attributes with ⟨r2, ok⟩
  have hE : Evolves r r2 := by
    have h0 := prebindMeshGo_evolves m.attributes r
    rwa [hg] at h0
  rw [prebind_mesh, hg]
  cases ok
  · exact hE
  · cases sl with
    | VertexSlice s e => exact hE
    | IndexSlice h s e =>
      dsimp only
      rcases hg2 : r2.get_buffer h with ⟨r3, ok2, v⟩
      have hE2 : Evolves r2 r3 := by
        have h0 : Evolves r2 (r2.get_buffer h).1 := evolves_demand r2 _
        rwa [hg2] at h0
      exact hE.trans hE2

theorem prebindBlocksGo_evolves : ∀ (l : List (Nat × Nat)) (r : RState),
    Evolves r (prebindBlocksGo r l).1 := by
  intro l
  induction l with
  | nil => intro r; exact Evolves.refl r
  | cons b rest ih =>
    intro r
    rcases hg : r.demand (fun c => !((c.buffers.getD b.2 .Pending).is_pending)) with ⟨r2, ok⟩
    have hE : Evolves r r2 := by
      have h0 := evolves_demand r (fun c => !((c.buffers.getD b.2 .Pending).is_pending))
      rwa [hg] at h0
    have hunf : prebindBlocksGo r (b :: rest)
        = match r.demand (fun c => !((c.buffers.getD b.2 .Pending).is_pending)) with
          | (r2, false) => (r2, false)
          | (r2, true) => prebindBlocksGo r2 rest := rfl
    rw [hunf, hg]
    cases ok
    · exact hE
    · exact hE.trans (ih r2)

theorem prebindTexturesGo_evolves : ∀ (l : List (Nat × Nat × Option Nat)) (r : RState),
    Evolves r (prebindTexturesGo r l).1 := by
  intro l
  induction l with
  | nil => intro r; exact Evolves.refl r
  | cons t rest ih =>
    intro r
    rcases hg : r.demand (fun c => !((c.textures.getD t.2.1 .Pending).is_pending)) with ⟨r2, ok⟩
    have hE : Evolves r r2 := by
      have h0 := evolves_demand r (fun c => !((c.textures.getD t.2.1 .Pending).is_pending))
      rwa [hg] at h0
    have hunf : prebindTexturesGo r (t :: rest)
        = match r.demand (fun c => !((c.textures.getD t.2.1 .Pending).is_pending)) with
          | (r2, false) => (r2, false)
          | (r2, true) =>
            match t.2.2 with
            | some sam =>
              match r2.demand (fun c => !((c.samplers.getD sam .Pending).is_pending)) with
              | (r3, false) => (r3, false)
              | (r3, true) => prebindTexturesGo r3 rest
            | none => prebindTexturesGo r2 rest := rfl
    rw [hunf, hg]
    cases ok
    · exact hE
    · cases hs : t.2.2 with
      | none => exact hE.trans (ih r2)
      | some sam =>
        dsimp only
        rcases hg2 : r2.demand (fun c => !((c.samplers.getD sam .Pending).is_pending))
          with ⟨r3, ok2⟩
        have hE2 : Evolves r2 r3 := by
          have h0 := evolves_demand r2 (fun c => !((c.samplers.getD sam .Pending).is_pending))
          rwa [hg2] at h0
        cases ok2
        · exact hE.trans hE2
        · exact hE.trans (hE2.trans (ih r3))

theorem prebind_bundle_evolves (r : RState) (b : ShaderBundle) :
    Evolves r (prebind_bundle r b).1 := by
  rcases hg : prebindBlocksGo r b.blocks with ⟨r2, ok⟩
  have hE : Evolves r r2 := by
    have h0 := prebindBlocksGo_evolves b.blocks r
    rwa [hg] at h0
  rw [prebind_bundle, hg]
  cases ok
  · exact hE
  · exact hE.trans (by
      have h0 := prebindTexturesGo_evolves b.textures r2
      exact h0)

theorem bind_frame_evolves (r : RState) (f : Frame) : Evolves r (bind_frame r f).1 := by
  rw [bind_frame]
  by_cases hd : f.is_default
  · rw [if_pos hd]
    exact Evolves.refl r
  · rw [if_neg hd]
    rcases hg : r.get_common_frame_buffer with ⟨r2, ok, v⟩
    have hE : Evolves r r2 := by
      have h0 : Evolves r (r.get_common_frame_buffer).1 := evolves_demand r _
      rwa [hg] at h0
    cases ok
    · exact hE
    · exact hE.frame_set f

/-- C9: the abort branch of `draw` — the `fail!` taken when the
shader-binding step observes the bundle's program slot still `Pending` — is
unreachable: `draw` demands the program slot non-pending before reaching
that match, replies never revert a resolved slot to `Pending`, and the
waits in between only process further replies. -/
theorem draw_never_aborts (compat : Nat → Nat → Bool) (r0 : RState) (m : Mesh) (sl : Slice)
    (f : Frame) (b : ShaderBundle) (st : DrawState) :
    (draw compat r0 m sl f b st).2.2 ≠ DrawRes.aborted := by
  rw [draw]
  rcases h1 : prebind_mesh r0 m sl with ⟨r1, ok1⟩
  cases ok1
  · simp
  · dsimp only
    rcases h2 : prebind_bundle r1 b with ⟨r2, ok2⟩
    cases ok2
    · simp
    · dsimp only
      rcases h3 : r2.demand (fun c => !((c.programs.getD b.program .Pending).is_pending))
        with ⟨r3, ok3⟩
      cases ok3
      · simp
      · dsimp only
        have hp3 : (r3.cache.programs.getD b.program .Pending).is_pending = false := by
          have hd := (demand_run r2
            (fun c => !((c.programs.getD b.program .Pending).is_pending))).2.1
          rw [h3] at hd
          simpa using hd rfl
        rcases h4 : r3.get_common_array_buffer with ⟨r4, ok4, vao⟩
        cases ok4
        · simp
        · dsimp only
          have hE4 : Evolves r3 r4 := by
            have h0 : Evolves r3 (r3.get_common_array_buffer).1 := evolves_demand r3 _
            rwa [h4] at h0
          rcases h5 : bind_frame r4 f with ⟨r5, fout, ok5⟩
          cases ok5
          · simp
          · dsimp only
            have hE5 : Evolves r4 r5 := by
              have h0 := bind_frame_evolves r4 f
              rwa [h5] at h0
            have hp5 : (r5.cache.programs.getD b.program .Pending).is_pending = false := by
              have := (hE4.trans hE5).pendingAt_mono .prog b.program
                (by simpa [Cache.pendingAt] using hp3)
              simpa [Cache.pendingAt] using this
            rcases h6 : r5.cache.programs.getD b.program .Pending with _ | p | e
            · rw [h6] at hp5
              simp [Future.is_pending] at hp5
            · dsimp only
              rcases h7 : bind_shader_bundle r5.cache p b with ⟨bout, bres⟩
              cases bres
              · dsimp only
                rcases h8 : bind_mesh compat r5.cache m p with ⟨mout, mres⟩
                cases mres
                · cases sl <;> simp
                · simp
              · simp
            · simp

/-- Whether a request is a framebuffer or render-target bind. -/
def isFrameCast : Request → Bool
  | .Cast (.BindFrameBuffer _) => true
  | .Cast (.BindTarget _ _) => true
  | _ => false

/-- Whether a request is one of the casts `bind_shader_bundle` emits. -/
def isBundleCast : Request → Bool
  | .Cast (.BindProgram _) => true
  | .Cast (.BindUniform _ _) => true
  | .Cast (.BindUniformBlock _ _ _ _) => true
  | .Cast (.BindTexture _ _ _) => true
  | _ => false

/-- Whether a request is a vertex-attribute bind. -/
def isAttrCast : Request → Bool
  | .Cast (.BindAttribute _ _ _ _ _ _) => true
  | _ => false

/-- The state casts of `draw` step 4 plus the array-buffer bind of step 5. -/
def stateCasts (st : DrawState) (vao : Nat) : List Request :=
  [.Cast (.SetPrimitiveState st.primitive),
   .Cast (.SetDepthStencilState st.depth st.stencil st.primitive.get_cull_mode),
   .Cast (.SetBlendState st.blend),
   .Cast (.BindArrayBuffer vao)]

/-- Everything `bind_frame` emits is a framebuffer or render-target bind. -/
theorem bind_frame_out_frame (r : RState) (f : Frame) :
    ∀ q ∈ (bind_frame r f).2.1, isFrameCast q = true := by
  rw [bind_frame]
  by_cases hd : f.is_default
  · rw [if_pos hd]
    intro q hq
    simp only [List.mem_singleton] at hq
    subst hq
    rfl
  · rw [if_neg hd]
    rcases hg : r.get_common_frame_buffer with ⟨r2, ok, fbo⟩
    cases ok
    · intro q hq
      simp at hq
    · dsimp only
      intro q hq
      simp only [List.mem_cons] at hq
      rcases hq with hq | hq
      · subst hq
        rfl
      · obtain ⟨x, hx, hxq⟩ := List.mem_map.mp hq
        subst hxq
        rcases List.mem_append.mp hx with hx | hx
        · rcases List.mem_append.mp hx with hx | hx
          · obtain ⟨j, t, he⟩ := colorDiffCasts_mem_color _ 0 _ _ hx
            subst he
            rfl
          · split at hx
            · simp only [List.mem_singleton] at hx
              subst hx
              rfl
            · simp at hx
        · split at hx
          · simp only [List.mem_singleton] at hx
            subst hx
            rfl
          · simp at hx

/-- Everything `bind_shader_bundle` emits is a program, uniform, block or
texture bind. -/
theorem bind_shader_bundle_out_bundle (c : Cache) (meta : ProgramMeta)
    (bundle : ShaderBundle) :
    ∀ q ∈ (bind_shader_bundle c meta bundle).1, isBundleCast q = true := by
  obtain ⟨hcasts, _⟩ := bind_shader_bundle_run c meta bundle
  rw [hcasts]
  intro q hq
  simp only [List.mem_cons] at hq
  rcases hq with hq | hq
  · subst hq
    rfl
  · obtain ⟨x, hx, hxq⟩ := List.mem_map.mp hq
    subst hxq
    rcases List.mem_append.mp hx with hx | hx
    · rcases List.mem_append.mp hx with hx | hx
      · obtain ⟨u, _, hu⟩ := List.mem_map.mp hx
        subst hu
        rfl
      · obtain ⟨p, _, hp⟩ := List.mem_map.mp hx
        subst hp
        rfl
    · obtain ⟨grp, hgrp, hxg⟩ := List.mem_flatten.mp hx
      obtain ⟨p, _, hp⟩ := List.mem_map.mp hgrp
      subst hp
      simp only [List.mem_cons, List.not_mem_nil, or_false] at hxg
      rcases hxg with hxg | hxg
      · subst hxg
        rfl
      · subst hxg
        rfl

/-- Everything `bind_mesh` emits is a vertex-attribute bind. -/
theorem bindMeshGo_out_attr (compat : Nat → Nat → Bool) (c : Cache) (m : Mesh) :
    ∀ (l : List AttributeVar), ∀ q ∈ (bindMeshGo compat c m l).1, isAttrCast q = true := by
  intro l
  induction l with
  | nil => intro q hq; simp [bindMeshGo] at hq
  | cons sat rest ih =>
    intro q hq
    rcases hfind : m.attributes.find? (fun a => a.name == sat.name) with _ | vat
    · rw [show bindMeshGo compat c m (sat :: rest) = ([], some .ErrorAttributeMissing) by
        simp [bindMeshGo, hfind]] at hq
      simp at hq
    · by_cases hc : compat vat.elem_type sat.base_type
      · rw [show bindMeshGo compat c m (sat :: rest)
            = (.Cast (.BindAttribute sat.location
                ((c.buffers.getD vat.buffer .Pending).unwrapD 0)
                vat.elem_count vat.elem_type vat.stride vat.offset)
              :: (bindMeshGo compat c m rest).1, (bindMeshGo compat c m rest).2) by
          simp [bindMeshGo, hfind, hc]] at hq
        simp only [List.mem_cons] at hq
        rcases hq with hq | hq
        · subst hq
          rfl
        · exact ih q hq
      · rw [show bindMeshGo compat c m (sat :: rest) = ([], some .ErrorAttributeType) by
          simp [bindMeshGo, hfind, hc]] at hq
        simp at hq

/-- C3: a failure at any step of `draw` aborts the remaining steps without
undoing commands already sent: when the program slot is `Failed`, the
program error is returned with only the state, array-buffer and frame casts
emitted — no bind-program, bundle, mesh or draw commands; when bundle
binding fails, the trace additionally holds only the bundle casts
(beginning with bind-program) — no attribute, index-bind or draw commands;
when mesh binding fails, additionally only attribute binds — no draw or
index-bind commands; and when the bundle's program slot is `Failed` with no
program reply for it in flight, `draw` either blocks in an earlier wait or
returns the program error. -/
theorem draw_error_spec (compat : Nat → Nat → Bool) (r0 : RState) (m : Mesh) (sl : Slice)
    (f : Frame) (b : ShaderBundle) (st : DrawState) :
    ((draw compat r0 m sl f b st).2.2 = .err .ErrorProgram →
      ∃ vao fcasts, (draw compat r0 m sl f b st).2.1 = stateCasts st vao ++ fcasts ∧
        ∀ q ∈ fcasts, isFrameCast q = true) ∧
    (∀ e, (draw compat r0 m sl f b st).2.2 = .err (.ErrorBundle e) →
      ∃ vao fcasts bcasts,
        (draw compat r0 m sl f b st).2.1 = stateCasts st vao ++ fcasts ++ bcasts ∧
        (∀ q ∈ fcasts, isFrameCast q = true) ∧
        (∀ q ∈ bcasts, isBundleCast q = true) ∧
        (∃ pn, bcasts.head? = some (.Cast (.BindProgram pn)))) ∧
    (∀ e, (draw compat r0 m sl f b st).2.2 = .err (.ErrorMesh e) →
      ∃ vao fcasts bcasts acasts,
        (draw compat r0 m sl f b st).2.1 = stateCasts st vao ++ fcasts ++ bcasts ++ acasts ∧
        (∀ q ∈ fcasts, isFrameCast q = true) ∧
        (∀ q ∈ bcasts, isBundleCast q = true) ∧
        (∀ q ∈ acasts, isAttrCast q = true)) ∧
    (r0.cache.programs.getD b.program .Pending = .Failed () → NoProgReply r0 b.program →
      (draw compat r0 m sl f b st).2.2 = .blocked ∨
      (draw compat r0 m sl f b st).2.2 = .err .ErrorProgram) := by
  rw [draw]
  rcases h1 : prebind_mesh r0 m sl with ⟨r1, ok1⟩
  have hE1 : Evolves r0 r1 := by
    have h0 := prebind_mesh_evolves r0 m sl
    rwa [h1] at h0
  cases ok1
  · exact ⟨by intro h; simp at h, by intro e h; simp at h, by intro e h; simp at h,
      fun _ _ => Or.inl rfl⟩
  · dsimp only
    rcases h2 : prebind_bundle r1 b with ⟨r2, ok2⟩
    have hE2 : Evolves r1 r2 := by
      have h0 := prebind_bundle_evolves r1 b
      rwa [h2] at h0
    cases ok2
    · exact ⟨by intro h; simp at h, by intro e h; simp at h, by intro e h; simp at h,
        fun _ _ => Or.inl rfl⟩
    · dsimp only
      rcases h3 : r2.demand (fun c => !((c.programs.getD b.program .Pending).is_pending))
        with ⟨r3, ok3⟩
      have hE3 : Evolves r2 r3 := by
        have h0 := evolves_demand r2
          (fun c => !((c.programs.getD b.program .Pending).is_pending))
        rwa [h3] at h0
      cases ok3
      · exact ⟨by intro h; simp at h, by intro e h; simp at h, by intro e h; simp at h,
          fun _ _ => Or.inl rfl⟩
      · dsimp only
        rcases h4 : r3.get_common_array_buffer with ⟨r4, ok4, vao⟩
        have hE4 : Evolves r3 r4 := by
          have h0 : Evolves r3 (r3.get_common_array_buffer).1 := evolves_demand r3 _
          rwa [h4] at h0
        cases ok4
        · exact ⟨by intro h; simp at h, by intro e h; simp at h, by intro e h; simp at h,
            fun _ _ => Or.inl rfl⟩
        · dsimp only
          rcases h5 : bind_frame r4 f with ⟨r5, fout, ok5⟩
          have hE5 : Evolves r4 r5 := by
            have h0 := bind_frame_evolves r4 f
            rwa [h5] at h0
          have hfr : ∀ q ∈ fout, isFrameCast q = true := by
            have h0 := bind_frame_out_frame r4 f
            rwa [h5] at h0
          have hstable : ∀ hf : r0.cache.programs.getD b.program .Pending = .Failed (),
              NoProgReply r0 b.program →
              r5.cache.programs.getD b.program .Pending = .Failed () := by
            intro hf hn
            have hS := (((hE1.trans hE2).trans hE3).trans (hE4.trans hE5)).programs_stable
              b.program hn
            rw [hS.1, hf]
          cases ok5
          · exact ⟨by intro h; simp at h, by intro e h; simp at h, by intro e h; simp at h,
              fun _ _ => Or.inl rfl⟩
          · dsimp only
            rcases h6 : r5.cache.programs.getD b.program .Pending with _ | p | e6
            · refine ⟨by intro h; simp at h, by intro e h; simp at h,
                by intro e h; simp at h, ?_⟩
              intro hf hn
              rw [hstable hf hn] at h6
              exact absurd h6 (by simp)
            · dsimp only
              rcases h7 : bind_shader_bundle r5.cache p b with ⟨bout, bres⟩
              have hbmem : ∀ q ∈ bout, isBundleCast q = true := by
                have h0 := bind_shader_bundle_out_bundle r5.cache p b
                rwa [h7] at h0
              have hbhead : bout.head? = some (.Cast (.BindProgram p.name)) := by
                obtain ⟨hb1, _⟩ := bind_shader_bundle_run r5.cache p b
                rw [h7] at hb1
                rw [show bout = (bout, bres).1 from rfl, hb1]
                rfl
              cases bres with
              | some e =>
                refine ⟨by intro h; simp at h, ?_, by intro e2 h; simp at h, ?_⟩
                · intro e2 he2
                  refine ⟨vao, fout, bout, ?_, hfr, hbmem, p.name, hbhead⟩
                  simp [stateCasts, List.append_assoc]
                · intro hf hn
                  rw [hstable hf hn] at h6
                  exact absurd h6 (by simp)
              | none =>
                dsimp only
                rcases h8 : bind_mesh compat r5.cache m p with ⟨mout, mres⟩
                have hamem : ∀ q ∈ mout, isAttrCast q = true := by
                  have h0 := bindMeshGo_out_attr compat r5.cache m p.attributes
                  have h8' : (bindMeshGo compat r5.cache m p.attributes).1 = mout :=
                    congrArg Prod.fst h8
                  rwa [h8'] at h0
                cases mres with
                | some e =>
                  refine ⟨by intro h; simp at h, by intro e2 h; simp at h, ?_, ?_⟩
                  · intro e2 he2
                    refine ⟨vao, fout, bout, mout, ?_, hfr, hbmem, hamem⟩
                    simp [stateCasts, List.append_assoc]
                  · intro hf hn
                    rw [hstable hf hn] at h6
                    exact absurd h6 (by simp)
                | none =>
                  cases sl with
                  | VertexSlice s e =>
                    refine ⟨by intro h; simp at h, by intro e2 h; simp at h,
                      by intro e2 h; simp at h, ?_⟩
                    intro hf hn
                    rw [hstable hf hn] at h6
                    exact absurd h6 (by simp)
                  | IndexSlice hh s e =>
                    refine ⟨by intro h; simp at h, by intro e2 h; simp at h,
                      by intro e2 h; simp at h, ?_⟩
                    intro hf hn
                    rw [hstable hf hn] at h6
                    exact absurd h6 (by simp)
            · refine ⟨?_, by intro e h; simp at h, by intro e h; simp at h,
                fun _ _ => Or.inr rfl⟩
              intro _
              refine ⟨vao, fout, ?_, hfr⟩
              simp [stateCasts, List.append_assoc]

/-- Renderer state whose program slot 0 already failed and whose common
array buffer resolved. -/
def c3WitR : RState :=
  { cache := { Cache.new with programs := [.Failed ()], array_buffers := [.Loaded 3] },
    errors := [], chan := [], frame := Frame.new, default_frame_buffer := 0 }

/-- Bundle over program token 0 with an empty binding plan. -/
def c3WitB : ShaderBundle := ⟨0, [], [], []⟩

/-- Trivial draw state. -/
def c3WitSt : DrawState := ⟨⟨0, 0⟩, 0, 0, 0⟩

theorem draw_error_spec_witness :
    ∃ vao fcasts,
      (draw (fun _ _ => true) c3WitR ⟨[]⟩ (.VertexSlice 0 0) Frame.new c3WitB c3WitSt).2.1
        = stateCasts c3WitSt vao ++ fcasts ∧ ∀ q ∈ fcasts, isFrameCast q = true :=
  (draw_error_spec (fun _ _ => true) c3WitR ⟨[]⟩ (.VertexSlice 0 0) Frame.new c3WitB
    c3WitSt).1 (by rfl)

/-- Waiting inside `prebind_mesh` on an attribute buffer that is still
pending and that no channel reply ever addresses blocks forever. -/
theorem prebindMeshGo_stuck (i : Nat) :
    ∀ (l : List Attribute) (r : RState), (∃ a ∈ l, a.buffer = i) →
      (r.cache.buffers.getD i .Pending).is_pending = true → NoBufReply r i →
      (prebindMeshGo r l).2 = false := by
  intro l
  induction l with
  | nil =>
    rintro r ⟨a, ha, _⟩ _ _
    simp at ha
  | cons x rest ih =>
    rintro r ⟨a, ha, hab⟩ hp hn
    rcases hg : r.get_buffer x.buffer with ⟨r2, ok, v⟩
    have hunf : prebindMeshGo r (x :: rest) = match r.get_buffer x.buffer with
      | (r2, false, _) => (r2, false)
      | (r2, true, _) => prebindMeshGo r2 rest := rfl
    rw [hunf, hg]
    cases ok
    · rfl
    · dsimp only
      rcases List.mem_cons.mp ha with hax | harest
      · exfalso
        subst hax
        rw [hab] at hg
        have hblk := demand_buffer_blocks r i hp hn
        have hone : (r.get_buffer i).2.1 = true := by rw [hg]
        rw [show (r.get_buffer i).2.1
          = (r.demand (fun c => !((c.buffers.getD i .Pending).is_pending))).2 from rfl,
          hblk] at hone
        exact Bool.false_ne_true hone
      · have hE : Evolves r r2 := by
          have h0 : Evolves r (r.get_buffer x.buffer).1 := evolves_demand r _
          rwa [hg] at h0
        obtain ⟨hpres, hn2⟩ := hE.buffers_stable i hn
        exact ih r2 ⟨a, harest, hab⟩ (by rw [hpres]; exact hp) hn2

/-- Success of the mesh-prebind loop resolves every attribute buffer. -/
theorem prebindMeshGo_success :
    ∀ (l : List Attribute) (r r2 : RState), prebindMeshGo r l = (r2, true) →
      ∀ a ∈ l, (r2.cache.buffers.getD a.buffer .Pending).is_pending = false := by
  intro l
  induction l with
  | nil =>
    intro r r2 _ a ha
    simp at ha
  | cons x rest ih =>
    intro r r2 hres a ha
    rcases hg : r.get_buffer x.buffer with ⟨rx, ok, v⟩
    have hunf : prebindMeshGo r (x :: rest) = match r.get_buffer x.buffer with
      | (r2, false, _) => (r2, false)
      | (r2, true, _) => prebindMeshGo r2 rest := rfl
    rw [hunf, hg] at hres
    cases ok
    · simp at hres
    · dsimp only at hres
      have hnx : (rx.cache.buffers.getD x.buffer .Pending).is_pending = false := by
        have hd := (demand_run r
          (fun c => !((c.buffers.getD x.buffer .Pending).is_pending))).2.1
        rw [show r.demand (fun c => !((c.buffers.getD x.buffer .Pending).is_pending))
          = ((r.get_buffer x.buffer).1, (r.get_buffer x.buffer).2.1) from rfl, hg] at hd
        simpa using hd rfl
      have hExr2 : Evolves rx r2 := by
        have h0 := prebindMeshGo_evolves rest rx
        rwa [hres] at h0
      rcases List.mem_cons.mp ha with hax | harest
      · subst hax
        have := hExr2.pendingAt_mono .buf a.buffer (by simpa [Cache.pendingAt] using hnx)
        simpa [Cache.pendingAt] using this
      · exact ih rx r2 hres a harest

/-- Success of `prebind_mesh` resolves every attribute buffer and, for an
indexed slice, the index buffer. -/
theorem prebind_mesh_success (r r2 : RState) (m : Mesh) (sl : Slice)
    (h : prebind_mesh r m sl = (r2, true)) :
    (∀ a ∈ m.attributes, (r2.cache.buffers.getD a.buffer .Pending).is_pending = false) ∧
    (∀ hh s e, sl = .IndexSlice hh s e →
      (r2.cache.buffers.getD hh .Pending).is_pending = false) := by
  rcases hg : prebindMeshGo r m.attributes with ⟨ra, ok⟩
  rw [prebind_mesh, hg] at h
  cases ok
  · simp at h
  · dsimp only at h
    cases sl with
    | VertexSlice s0 e0 =>
      simp only [Prod.mk.injEq] at h
      obtain ⟨hra, _⟩ := h
      subst hra
      refine ⟨prebindMeshGo_success m.attributes r ra hg, ?_⟩
      intro hh s e heq
      exact absurd heq (by simp)
    | IndexSlice hh0 s0 e0 =>
      dsimp only at h
      rcases hg2 : ra.get_buffer hh0 with ⟨rb, ok2, v⟩
      rw [hg2] at h
      cases ok2
      · simp at h
      · dsimp only at h
        simp only [Prod.mk.injEq] at h
        obtain ⟨hrb, _⟩ := h
        subst hrb
        have hE : Evolves ra rb := by
          have h0 : Evolves ra (ra.get_buffer hh0).1 := evolves_demand ra _
          rwa [hg2] at h0
        constructor
        · intro a ha
          have h0 := prebindMeshGo_success m.attributes r ra hg a ha
          have := hE.pendingAt_mono .buf a.buffer (by simpa [Cache.pendingAt] using h0)
          simpa [Cache.pendingAt] using this
        · intro hh s e heq
          have hhh : hh = hh0 := by
            injection heq with h1 _ _
            exact h1.symm
          subst hhh
          have hd := (demand_run ra
            (fun c => !((c.buffers.getD hh .Pending).is_pending))).2.1
          rw [show ra.demand (fun c => !((c.buffers.getD hh .Pending).is_pending))
            = ((ra.get_buffer hh).1, (ra.get_buffer hh).2.1) from rfl, hg2] at hd
          simpa using hd rfl

/-- Success of the bundle buffers pass resolves every block buffer. -/
theorem prebindBlocksGo_success :
    ∀ (l : List (Nat × Nat)) (r r2 : RState), prebindBlocksGo r l = (r2, true) →
      ∀ bl ∈ l, (r2.cache.buffers.getD bl.2 .Pending).is_pending = false := by
  intro l
  induction l with
  | nil =>
    intro r r2 _ bl hbl
    simp at hbl
  | cons x rest ih =>
    intro r r2 hres bl hbl
    rcases hg : r.demand (fun c => !((c.buffers.getD x.2 .Pending).is_pending)) with ⟨rx, ok⟩
    have hunf : prebindBlocksGo r (x :: rest)
        = match r.demand (fun c => !((c.buffers.getD x.2 .Pending).is_pending)) with
          | (r2, false) => (r2, false)
          | (r2, true) => prebindBlocksGo r2 rest := rfl
    rw [hunf, hg] at hres
    cases ok
    · simp at hres
    · dsimp only at hres
      have hnx : (rx.cache.buffers.getD x.2 .Pending).is_pending = false := by
        have hd := (demand_run r (fun c => !((c.buffers.getD x.2 .Pending).is_pending))).2.1
        rw [hg] at hd
        simpa using hd rfl
      have hExr2 : Evolves rx r2 := by
        have h0 := prebindBlocksGo_evolves rest rx
        rwa [hres] at h0
      rcases List.mem_cons.mp hbl with hax | harest
      · subst hax
        have := hExr2.pendingAt_mono .buf bl.2 (by simpa [Cache.pendingAt] using hnx)
        simpa [Cache.pendingAt] using this
      · exact ih rx r2 hres bl harest

/-- Success of the bundle texture pass resolves every texture and every
present sampler. -/
theorem prebindTexturesGo_success :
    ∀ (l : List (Nat × Nat × Option Nat)) (r r2 : RState),
      prebindTexturesGo r l = (r2, true) →
      ∀ t ∈ l, (r2.cache.textures.getD t.2.1 .Pending).is_pending = false ∧
        ∀ sm, t.2.2 = some sm →
          (r2.cache.samplers.getD sm .Pending).is_pending = false := by
  intro l
  induction l with
  | nil =>
    intro r r2 _ t ht
    simp at ht
  | cons x rest ih =>
    intro r r2 hres t ht
    rcases hg : r.demand (fun c => !((c.textures.getD x.2.1 .Pending).is_pending)) with ⟨rx, ok⟩
    have hunf : prebindTexturesGo r (x :: rest)
        = match r.demand (fun c => !((c.textures.getD x.2.1 .Pending).is_pending)) with
          | (r2, false) => (r2, false)
          | (r2, true) =>
            match x.2.2 with
            | some sam =>
              match r2.demand (fun c => !((c.samplers.getD sam .Pending).is_pending)) with
              | (r3, false) => (r3, false)
              | (r3, true) => prebindTexturesGo r3 rest
            | none => prebindTexturesGo r2 rest := rfl
    rw [hunf, hg] at hres
    cases ok
    · simp at hres
    · dsimp only at hres
      have hnx : (rx.cache.textures.getD x.2.1 .Pending).is_pending = false := by
        have hd := (demand_run r
          (fun c => !((c.textures.getD x.2.1 .Pending).is_pending))).2.1
        rw [hg] at hd
        simpa using hd rfl
      cases hs : x.2.2 with
      | none =>
        rw [hs] at hres
        dsimp only at hres
        have hExr2 : Evolves rx r2 := by
          have h0 := prebindTexturesGo_evolves rest rx
          rwa [hres] at h0
        rcases List.mem_cons.mp ht with hax | harest
        · subst hax
          refine ⟨?_, ?_⟩
          · have := hExr2.pendingAt_mono .tex t.2.1 (by simpa [Cache.pendingAt] using hnx)
            simpa [Cache.pendingAt] using this
          · intro sm hsm
            rw [hs] at hsm
            exact absurd hsm (by simp)
        · exact ih rx r2 hres t harest
      | some sam =>
        rw [hs] at hres
        dsimp only at hres
        rcases hg2 : rx.demand (fun c => !((c.samplers.getD sam .Pending).is_pending))
          with ⟨ry, ok2⟩
        rw [hg2] at hres
        cases ok2
        · simp at hres
        · dsimp only at hres
          have hny : (ry.cache.samplers.getD sam .Pending).is_pending = false := by
            have hd := (demand_run rx
              (fun c => !((c.samplers.getD sam .Pending).is_pending))).2.1
            rw [hg2] at hd
            simpa using hd rfl
          have hExy : Evolves rx ry := by
            have h0 := evolves_demand rx
              (fun c => !((c.samplers.getD sam .Pending).is_pending))
            rwa [hg2] at h0
          have hEyr2 : Evolves ry r2 := by
            have h0 := prebindTexturesGo_evolves rest ry
            rwa [hres] at h0
          rcases List.mem_cons.mp ht with hax | harest
          · subst hax
            refine ⟨?_, ?_⟩
            · have h1 := hExy.pendingAt_mono .tex t.2.1
                (by simpa [Cache.pendingAt] using hnx)
              have := hEyr2.pendingAt_mono .tex t.2.1 h1
              simpa [Cache.pendingAt] using this
            · intro sm hsm
              rw [hs] at hsm
              injection hsm with hsm
              subst hsm
              have := hEyr2.pendingAt_mono .sam sam (by simpa [Cache.pendingAt] using hny)
              simpa [Cache.pendingAt] using this
          · exact ih ry r2 hres t harest

/-- Success of `prebind_bundle` resolves every referenced buffer, texture
and sampler. -/
theorem prebind_bundle_success (r r2 : RState) (b : ShaderBundle)
    (h : prebind_bundle r b = (r2, true)) :
    (∀ bl ∈ b.blocks, (r2.cache.buffers.getD bl.2 .Pending).is_pending = false) ∧
    (∀ t ∈ b.textures, (r2.cache.textures.getD t.2.1 .Pending).is_pending = false ∧
      ∀ sm, t.2.2 = some sm →
        (r2.cache.samplers.getD sm .Pending).is_pending = false) := by
  rcases hg : prebindBlocksGo r b.blocks with ⟨ra, ok⟩
  rw [prebind_bundle, hg] at h
  cases ok
  · simp at h
  · dsimp only at h
    have hE : Evolves ra r2 := by
      have h0 := prebindTexturesGo_evolves b.textures ra
      rwa [h] at h0
    constructor
    · intro bl hbl
      have h0 := prebindBlocksGo_success b.blocks r ra hg bl hbl
      have := hE.pendingAt_mono .buf bl.2 (by simpa [Cache.pendingAt] using h0)
      simpa [Cache.pendingAt] using this
    · exact prebindTexturesGo_success b.textures ra r2 h

/-- `prebind_mesh` blocks forever when some attribute's buffer is pending
and no channel reply ever addresses it. -/
theorem prebind_mesh_stuck (r : RState) (m : Mesh) (sl : Slice) (a : Attribute)
    (ha : a ∈ m.attributes)
    (hp : (r.cache.buffers.getD a.buffer .Pending).is_pending = true)
    (hn : NoBufReply r a.buffer) :
    (prebind_mesh r m sl).2 = false := by
  rcases hg : prebindMeshGo r m.attributes with ⟨ra, ok⟩
  have hstuck := prebindMeshGo_stuck a.buffer m.attributes r ⟨a, ha, rfl⟩ hp hn
  rw [hg] at hstuck
  simp only at hstuck
  rw [prebind_mesh, hg, hstuck]

/-- C8: `draw` emits nothing before every mesh vertex-attribute buffer, the
index buffer of an indexed slice, every bundle-referenced buffer, texture
and sampler, and the bundle's program have left the `Pending` state — any
emitted command implies all of them are resolved in the final state; and a
draw on a mesh with an attribute whose buffer is pending and never receives
a reply blocks forever inside prebinding, having emitted no commands. -/
theorem draw_prebind_spec (compat : Nat → Nat → Bool) (r0 : RState) (m : Mesh) (sl : Slice)
    (f : Frame) (b : ShaderBundle) (st : DrawState) :
    ((draw compat r0 m sl f b st).2.1 ≠ [] →
      (∀ a ∈ m.attributes,
        (draw compat r0 m sl f b st).1.cache.pendingAt .buf a.buffer = false) ∧
      (∀ hh s e, sl = .IndexSlice hh s e →
        (draw compat r0 m sl f b st).1.cache.pendingAt .buf hh = false) ∧
      (∀ bl ∈ b.blocks,
        (draw compat r0 m sl f b st).1.cache.pendingAt .buf bl.2 = false) ∧
      (∀ t ∈ b.textures,
        (draw compat r0 m sl f b st).1.cache.pendingAt .tex t.2.1 = false ∧
        ∀ sm, t.2.2 = some sm →
          (draw compat r0 m sl f b st).1.cache.pendingAt .sam sm = false) ∧
      (draw compat r0 m sl f b st).1.cache.pendingAt .prog b.program = false) ∧
    (∀ a ∈ m.attributes,
      (r0.cache.buffers.getD a.buffer .Pending).is_pending = true →
      NoBufReply r0 a.buffer →
      (draw compat r0 m sl f b st).2.1 = [] ∧
      (draw compat r0 m sl f b st).2.2 = .blocked) := by
  constructor
  · rw [draw]
    rcases h1 : prebind_mesh r0 m sl with ⟨r1, ok1⟩
    cases ok1
    · intro hne
      exact absurd rfl hne
    · dsimp only
      rcases h2 : prebind_bundle r1 b with ⟨r2, ok2⟩
      cases ok2
      · intro hne
        exact absurd rfl hne
      · dsimp only
        rcases h3 : r2.demand (fun c => !((c.programs.getD b.program .Pending).is_pending))
          with ⟨r3, ok3⟩
        have hE3 : Evolves r2 r3 := by
          have h0 := evolves_demand r2
            (fun c => !((c.programs.getD b.program .Pending).is_pending))
          rwa [h3] at h0
        cases ok3
        · intro hne
          exact absurd rfl hne
        · dsimp only
          have hE23 : Evolves r1 r3 := by
            have h0 := prebind_bundle_evolves r1 b
            rw [h2] at h0
            exact Evolves.trans h0 hE3
          obtain ⟨hm1, hi1⟩ := prebind_mesh_success r0 r1 m sl h1
          obtain ⟨hb2, ht2⟩ := prebind_bundle_success r1 r2 b h2
          have hmesh3 : ∀ a ∈ m.attributes, r3.cache.pendingAt .buf a.buffer = false := by
            intro a ha
            exact hE23.pendingAt_mono .buf a.buffer (by simpa [Cache.pendingAt] using hm1 a ha)
          have hidx3 : ∀ hh s e, sl = .IndexSlice hh s e →
              r3.cache.pendingAt .buf hh = false := by
            intro hh s e heq
            exact hE23.pendingAt_mono .buf hh
              (by simpa [Cache.pendingAt] using hi1 hh s e heq)
          have hblk3 : ∀ bl ∈ b.blocks, r3.cache.pendingAt .buf bl.2 = false := by
            intro bl hbl
            exact hE3.pendingAt_mono .buf bl.2 (by simpa [Cache.pendingAt] using hb2 bl hbl)
          have htex3 : ∀ t ∈ b.textures, r3.cache.pendingAt .tex t.2.1 = false ∧
              ∀ sm, t.2.2 = some sm → r3.cache.pendingAt .sam sm = false := by
            intro t ht
            refine ⟨hE3.pendingAt_mono .tex t.2.1
              (by simpa [Cache.pendingAt] using (ht2 t ht).1), ?_⟩
            intro sm hsm
            exact hE3.pendingAt_mono .sam sm
              (by simpa [Cache.pendingAt] using (ht2 t ht).2 sm hsm)
          have hprog3 : r3.cache.pendingAt .prog b.program = false := by
            have hd := (demand_run r2
              (fun c => !((c.programs.getD b.program .Pending).is_pending))).2.1
            rw [h3] at hd
            simpa [Cache.pendingAt] using hd rfl
          have push : ∀ (rF : RState), Evolves r3 rF →
              (∀ a ∈ m.attributes, rF.cache.pendingAt .buf a.buffer = false) ∧
              (∀ hh s e, sl = .IndexSlice hh s e → rF.cache.pendingAt .buf hh = false) ∧
              (∀ bl ∈ b.blocks, rF.cache.pendingAt .buf bl.2 = false) ∧
              (∀ t ∈ b.textures, rF.cache.pendingAt .tex t.2.1 = false ∧
                ∀ sm, t.2.2 = some sm → rF.cache.pendingAt .sam sm = false) ∧
              rF.cache.pendingAt .prog b.program = false := by
            intro rF hEF
            refine ⟨fun a ha => hEF.pendingAt_mono _ _ (hmesh3 a ha),
              fun hh s e heq => hEF.pendingAt_mono _ _ (hidx3 hh s e heq),
              fun bl hbl => hEF.pendingAt_mono _ _ (hblk3 bl hbl),
              fun t ht => ⟨hEF.pendingAt_mono _ _ (htex3 t ht).1,
                fun sm hsm => hEF.pendingAt_mono _ _ ((htex3 t ht).2 sm hsm)⟩,
              hEF.pendingAt_mono _ _ hprog3⟩
          rcases h4 : r3.get_common_array_buffer with ⟨r4, ok4, vao⟩
          have hE4 : Evolves r3 r4 := by
            have h0 : Evolves r3 (r3.get_common_array_buffer).1 := evolves_demand r3 _
            rwa [h4] at h0
          cases ok4
          · intro _
            exact push r4 hE4
          · dsimp only
            rcases h5 : bind_frame r4 f with ⟨r5, fout, ok5⟩
            have hE5 : Evolves r4 r5 := by
              have h0 := bind_frame_evolves r4 f
              rwa [h5] at h0
            cases ok5
            · intro _
              exact push r5 (hE4.trans hE5)
            · dsimp only
              rcases h6 : r5.cache.programs.getD b.program .Pending with _ | p | e6
              · intro _
                exact push r5 (hE4.trans hE5)
              · dsimp only
                rcases h7 : bind_shader_bundle r5.cache p b with ⟨bout, bres⟩
                cases bres
                · dsimp only
                  rcases h8 : bind_mesh compat r5.cache m p with ⟨mout, mres⟩
                  cases mres
                  · cases sl with
                    | VertexSlice s e =>
                      intro _
                      exact push r5 (hE4.trans hE5)
                    | IndexSlice hh s e =>
                      intro _
                      exact push r5 (hE4.trans hE5)
                  · intro _
                    exact push r5 (hE4.trans hE5)
                · intro _
                  exact push r5 (hE4.trans hE5)
              · intro _
                exact push r5 (hE4.trans hE5)
  · intro a ha hp hn
    rw [draw]
    rcases h1 : prebind_mesh r0 m sl with ⟨r1, ok1⟩
    have hstuck := prebind_mesh_stuck r0 m sl a ha hp hn
    rw [h1] at hstuck
    simp only at hstuck
    subst hstuck
    exact ⟨rfl, rfl⟩

/-- Renderer state with a single pending buffer slot and an empty channel. -/
def c8WitR : RState :=
  { cache := { Cache.new with buffers := [.Pending] },
    errors := [], chan := [], frame := Frame.new, default_frame_buffer := 0 }

/-- One mesh attribute sourced from buffer token 0. -/
def c8WitA : Attribute := ⟨"pos", 0, 3, 1, 12, 0⟩

theorem draw_prebind_spec_witness :
    (draw (fun _ _ => true) c8WitR ⟨[c8WitA]⟩ (.VertexSlice 0 0) Frame.new c3WitB
        c3WitSt).2.1 = [] ∧
    (draw (fun _ _ => true) c8WitR ⟨[c8WitA]⟩ (.VertexSlice 0 0) Frame.new c3WitB
        c3WitSt).2.2 = .blocked :=
  (draw_prebind_spec (fun _ _ => true) c8WitR ⟨[c8WitA]⟩ (.VertexSlice 0 0) Frame.new c3WitB
    c3WitSt).2 c8WitA (by simp) (by rfl)
    (by intro rep hrep res; simp [c8WitR] at hrep)
